import Mathlib

/-!
Verification of the traceroute_simulator C core against its specification.

The development shallow-embeds the relevant C functions of
`src/core/router_facts_loader.c`, `src/core/hidden_mesh_setup.c`,
`src/core/shared_registry.h` and `src/utils/netns_reader.c` as executable
Lean functions over `List Char` (C strings without the terminating NUL) and
proves or refutes the frozen claims about them.

Modelling conventions:
  * a C `char *` string is a `List Char`; the NUL terminator is implicit;
  * `snprintf` truncation to an `n`-byte buffer is `List.take (n-1)`;
  * results of `system(...)` and other environment interactions are
    explicit Boolean/Int parameters of the embedded functions;
  * machine-integer overflow is irrelevant for the quantities involved
    (counters bounded by table capacities), so `Nat`/`Int` are used.
-/

abbrev Str := List Char

/-- Convenience injection of a Lean string literal into the `List Char` model. -/
def str (s : String) : Str := s.data

/-- Character class used by C `isspace` in the "C" locale. -/
def isSpaceC (c : Char) : Bool :=
  c = ' ' || c = '\t' || c = '\n' || c = '\x0b' || c = '\x0c' || c = '\r'

/-- The exact four characters trimmed at the end of a section body by
`find_section` (newline, carriage return, space, tab). -/
def isTrimWs (c : Char) : Bool :=
  c = '\n' || c = '\r' || c = ' ' || c = '\t'

/-- Character class used by C `isdigit`. -/
def isDigitC (c : Char) : Bool :=
  '0' ≤ c && c ≤ '9'

/-- Model of C `strstr`: index of the first occurrence of `pat` in `s`
(`none` when there is no occurrence).  C returns a pointer to the
occurrence; the index is the pointer-arithmetic offset. -/
def strstr : Str → Str → Option Nat
  | [], pat => if pat.isPrefixOf ([] : Str) then some 0 else none
  | c :: t, pat =>
    if pat.isPrefixOf (c :: t) then some 0 else (strstr t pat).map (· + 1)

/-- Model of C `strchr`: index of the first occurrence of character `c`. -/
def strchrC (s : Str) (c : Char) : Option Nat :=
  List.findIdx? (· = c) s

/-- Right-trim of the `find_section` whitespace set. -/
def rtrimC (s : Str) : Str :=
  (s.reverse.dropWhile isTrimWs).reverse

/-- Left-then-right trim with C `isspace`, as done on routing-table lines. -/
def trimSpacesC (s : Str) : Str :=
  ((s.dropWhile isSpaceC).reverse.dropWhile isSpaceC).reverse

/-- Decimal digit character for a value below ten. -/
def digitChar (n : Nat) : Char := Char.ofNat (48 + n)

/-- Decimal digits, most significant first; the fuel argument only bounds
the recursion depth and is irrelevant as long as it exceeds the value
(see `natDec_eq`). -/
def natDecAux : Nat → Nat → Str
  | 0, _ => []
  | fuel + 1, n =>
    if n < 10 then [digitChar n]
    else natDecAux fuel (n / 10) ++ [digitChar (n % 10)]

/-- Decimal representation of a natural number, most significant digit
first, no leading zeros (the single digit `0` for zero). -/
def natDec (n : Nat) : Str := natDecAux (n + 1) n

/-- Numeric value of a digit string (the accumulator loop of `atoi` and of
`scanf` numeric conversions). -/
def digitsVal (ds : Str) : Nat :=
  ds.foldl (fun a c => a * 10 + (c.toNat - 48)) 0

/-- Model of C `atoi`: skip `isspace` characters, optional sign, then the
longest digit prefix; `0` when there is no digit.  (Overflow of the C
`int` is not modelled; all values relevant to the claims are small.) -/
def atoiC (s : Str) : Int :=
  let s1 := s.dropWhile isSpaceC
  match s1 with
  | '-' :: rest => - (digitsVal (rest.takeWhile isDigitC) : Int)
  | '+' :: rest => (digitsVal (rest.takeWhile isDigitC) : Int)
  | _ => (digitsVal (s1.takeWhile isDigitC) : Int)

/-- Model of one `scanf` `%s` conversion: skip whitespace, read the longest
non-whitespace token; fails when the input holds no token. -/
def scanToken (s : Str) : Option (Str × Str) :=
  let s1 := s.dropWhile isSpaceC
  let tok := s1.takeWhile (fun c => !isSpaceC c)
  if tok = [] then none else some (tok, s1.drop tok.length)

/-- Model of one `scanf` `%u` conversion on the canonical inputs of this
program: skip whitespace, read the longest digit prefix (the C sign
handling is never exercised by the canonical subnet strings the claims
quantify over). -/
def parseUInt (s : Str) : Option (Nat × Str) :=
  let s1 := s.dropWhile isSpaceC
  let ds := s1.takeWhile isDigitC
  if ds = [] then none else some (digitsVal ds, s1.drop ds.length)

/-- Literal (non-whitespace) character of a `scanf` format: must match
exactly. -/
def expectChar (c : Char) : Str → Option Str
  | [] => none
  | x :: rest => if x = c then some rest else none

/-- Decimal representation left-padded with `'0'` to a minimum width, the
value semantics of `printf` `%0Nu`. -/
def padDec (w n : Nat) : Str :=
  List.replicate (w - (natDec n).length) '0' ++ natDec n

/-!
Facts parser (`src/core/router_facts_loader.c`).
-/

/-- Start marker of a facts-file section as the format prescribes: the
`printf` format `=== TSIM_SECTION_START:%s ===` applied verbatim. -/
def sectionStartMarkerFull (name : Str) : Str :=
  str "=== TSIM_SECTION_START:" ++ name ++ str " ==="

/-- End marker of a facts-file section as the format prescribes. -/
def sectionEndMarkerFull (name : Str) : Str :=
  str "=== TSIM_SECTION_END:" ++ name ++ str " ==="

/-- Start marker actually searched by `find_section`: the C builds it
with `snprintf` into `char start_marker[256]` (router_facts_loader.c:229,
232), so it is truncated to 255 characters.  Identical to
`sectionStartMarkerFull` whenever the section name has at most 228
characters. -/
def sectionStartMarker (name : Str) : Str :=
  (sectionStartMarkerFull name).take 255

/-- End marker actually searched by `find_section`: `snprintf` into
`char end_marker[256]` (router_facts_loader.c:230, 233) truncates it to
255 characters; untruncated whenever the name has at most 230
characters. -/
def sectionEndMarker (name : Str) : Str :=
  (sectionEndMarkerFull name).take 255

/-- Sentinel that also terminates a section body. -/
def exitCodeSentinel : Str := str "\nEXIT_CODE:"

/-- Model of `find_section` (router_facts_loader.c:228-275).  Locates the
start marker, skips to the first occurrence of `---` plus one character
(the dashes line and its newline), cuts at the earlier of the
`\nEXIT_CODE:` sentinel and the end marker, and trims trailing
whitespace.  Absent start marker, absent dashes, or absence of both
terminators give `none`; an empty body gives `some []` (the C code
returns an allocated empty string, not NULL). -/
def find_section (content name : Str) : Option Str :=
  match strstr content (sectionStartMarker name) with
  | none => none
  | some i =>
    let s1 := content.drop i
    match strstr s1 (str "---") with
    | none => none
    | some j =>
      let body0 := s1.drop (j + 4)
      match strstr body0 exitCodeSentinel, strstr body0 (sectionEndMarker name) with
      | some x, some y => some (rtrimC (body0.take (if x < y then x else y)))
      | some x, none => some (rtrimC (body0.take x))
      | none, some y => some (rtrimC (body0.take y))
      | none, none => none

/-- `find_section` as the specification words it: the same extraction but
anchored on the verbatim (untruncated) markers.  It differs from
`find_section` only in the markers searched, and coincides with it for
section names of at most 228 characters. -/
def find_section_claimed (content name : Str) : Option Str :=
  match strstr content (sectionStartMarkerFull name) with
  | none => none
  | some i =>
    let s1 := content.drop i
    match strstr s1 (str "---") with
    | none => none
    | some j =>
      let body0 := s1.drop (j + 4)
      match strstr body0 exitCodeSentinel, strstr body0 (sectionEndMarkerFull name) with
      | some x, some y => some (rtrimC (body0.take (if x < y then x else y)))
      | some x, none => some (rtrimC (body0.take x))
      | none, some y => some (rtrimC (body0.take y))
      | none, none => none

/-- A 229-character section name: the shortest at which the `snprintf`
into `char start_marker[256]` truncates (23 + 229 + 4 = 256 > 255). -/
def c5LongName : Str := List.replicate 229 'a'

/-- Content holding a decoy that spells out the truncated start marker
(the verbatim marker minus its final `=`) followed by a dashes line,
ahead of the genuine canonical section with body `xyz`. -/
def c5Content : Str :=
  sectionStartMarker c5LongName ++ str "\n---\nD"
    ++ sectionStartMarkerFull c5LongName ++ str "\n---\nxyz\nEXIT_CODE: 0"

/-- Tokenisation of a section body by `strtok_r(.., "\n", ..)`: split on
newlines; `strtok` never yields empty tokens (runs of delimiters
collapse). -/
def strtokLines (s : Str) : List Str :=
  (List.splitOn '\n' s).filter (· ≠ [])

/-- Per-line filter of the routing-table extraction loops: drop lines that
contain `EXIT_CODE:` anywhere, trim both ends with `isspace`, drop lines
that are then empty. -/
def routeLineOf (l : Str) : Option Str :=
  if strstr l (str "EXIT_CODE:") ≠ none then none
  else
    let t := trimSpacesC l
    if t = [] then none else some t

/-- Command built by `load_router_facts` (lines 982-990) for one routing
line: the table parameter goes before the route when the table is not
`main`; the 1024-byte `cmd` buffer truncates to 1023 characters. -/
def routeCmdForLine (tableName line : Str) : Str :=
  if tableName = str "main" then (str "ip route add " ++ line).take 1023
  else (str "ip route add table " ++ tableName ++ str " " ++ line).take 1023

/-- Commands extracted from the facts section named
`routing_table_<tableName>`, in line order. -/
def sectionRouteCmds (content tableName : Str) : List Str :=
  match find_section content (str "routing_table_" ++ tableName) with
  | none => []
  | some sec => ((strtokLines sec).filterMap routeLineOf).map (routeCmdForLine tableName)

/-- Search string of the routing-table enumeration loop in
`load_router_facts` (line 925).  Note the trailing underscore. -/
def routingStartPrefix : Str := str "=== TSIM_SECTION_START:routing_table_"

/-- Table name extracted after a match of `routingStartPrefix`: characters
up to a space, an `=`, or 255 characters. -/
def takeTableName (s : Str) : Str :=
  (s.takeWhile (fun c => c ≠ ' ' && c ≠ '=')).take 255

/-- Enumeration loop of `load_router_facts` (lines 928-1003): repeatedly
find the search string, read the table name after it, then continue one
character past the match position.  `fuel` only bounds the recursion; the
loop always terminates before exhausting `content.length + 1`. -/
def enumRoutingTables : Nat → Str → List Str
  | 0, _ => []
  | fuel + 1, s =>
    match strstr s routingStartPrefix with
    | none => []
    | some i =>
      let name := takeTableName (s.drop (i + routingStartPrefix.length))
      let rest := s.drop (i + routingStartPrefix.length + 1)
      if name = [] then enumRoutingTables fuel rest
      else name :: enumRoutingTables fuel rest

/-- The complete raw-route-command list appended by `load_router_facts`
for one facts file: only sections matching `routing_table_<name>` are
enumerated, each contributing its commands in line order. -/
def loadRawRouteCommands (content : Str) : List Str :=
  (enumRoutingTables (content.length + 1) content).foldl
    (fun acc name => acc ++ sectionRouteCmds content name) []

/-- Parsed address record (struct `address_t`). -/
structure AddressM where
  ip : Str
  broadcast : Option Str := none
  scope : Option Str := none
  prefixlen : Int := 0
  secondary : Bool := false
deriving Repr, DecidableEq

/-- Model of the `inet6` branch of `parse_interfaces_section`
(router_facts_loader.c:449-491), reached for a line containing `inet6 `
while a current interface exists.  Returns the address appended to the
interface, or `none` when the line is dropped.  The C `ip_addr[46]`
buffer is written by an unbounded `%s`; the semantic value is the whole
token. -/
def parseInet6Line (line : Str) : Option AddressM :=
  let trimmed := line.dropWhile isSpaceC
  match strstr trimmed (str "inet6 ") with
  | none => none
  | some i =>
    let inet6 := trimmed.drop (i + 6)
    match scanToken inet6 with
    | none => none
    | some (ipAddr, _) =>
      if strstr ipAddr (str "fe80:") ≠ none then none
      else
        let scope :=
          match strstr inet6 (str "scope ") with
          | some j =>
            match scanToken (inet6.drop (j + 6)) with
            | some (tok, _) => tok.take 31
            | none => str "global"
          | none => str "global"
        let prefixlen :=
          match strchrC ipAddr '/' with
          | some k => atoiC (ipAddr.drop (k + 1))
          | none => 0
        some { ip := ipAddr, scope := some scope, prefixlen := prefixlen }

/-!
Batch executor (`src/core/router_facts_loader.c:1107-1204`).
-/

/-- State of a batch context: the script bytes written so far (indices
`0 ..= buffer_size - 1` of the mapped buffer) and the fixed capacity. -/
structure BatchState where
  buffer : Str
  capacity : Nat
deriving Repr, DecidableEq

/-- Header written by `create_batch_context`. -/
def batchHeader : Str := str "#!/bin/bash\nset -e\n"

/-- Model of `create_batch_context`: capacity defaults to 1 MiB when the
requested initial size is zero. -/
def create_batch_context (initialSize : Nat) : BatchState :=
  { buffer := batchHeader
    capacity := if initialSize = 0 then 1048576 else initialSize }

/-- Line formatted into the local `full_cmd[8192]` buffer by
`batch_add_command`; `snprintf` truncates to 8191 characters. -/
def formatBatchCmd (ns : Option Str) (command : Str) : Str :=
  (match ns with
   | some n => str "ip netns exec " ++ n ++ str " " ++ command ++ [ '\n' ]
   | none => command ++ [ '\n' ]).take 8191

/-- Model of `batch_add_command`: fail (returning `-1` and leaving the
state untouched) when the formatted line plus a NUL terminator does not
fit in the remaining capacity, otherwise append it. -/
def batch_add_command (st : BatchState) (ns : Option Str) (command : Str) :
    Int × BatchState :=
  let fullCmd := formatBatchCmd ns command
  if st.buffer.length + fullCmd.length + 1 > st.capacity then (-1, st)
  else (0, { st with buffer := st.buffer ++ fullCmd })

/-!
Bridge naming and subnet derivation (`src/core/hidden_mesh_setup.c`).
-/

/-- Model of `sscanf(subnet, "%u.%u.%u.%u/%u", ...)`. -/
def sscanfSubnet (s : Str) : Option (Nat × Nat × Nat × Nat × Nat) :=
  match parseUInt s with
  | none => none
  | some (a, r1) =>
    match expectChar '.' r1 with
    | none => none
    | some r2 =>
      match parseUInt r2 with
      | none => none
      | some (b, r3) =>
        match expectChar '.' r3 with
        | none => none
        | some r4 =>
          match parseUInt r4 with
          | none => none
          | some (c, r5) =>
            match expectChar '.' r5 with
            | none => none
            | some r6 =>
              match parseUInt r6 with
              | none => none
              | some (d, r7) =>
                match expectChar '/' r7 with
                | none => none
                | some r8 =>
                  match parseUInt r8 with
                  | none => none
                  | some (p, _) => some (a, b, c, d, p)

/-- Model of `generate_bridge_name` (hidden_mesh_setup.c:128-141).  The
`now` parameter stands for `time(NULL)` and is used only by the fallback
branch for non-parsable subnets; the 16-byte output buffer truncates to
15 characters. -/
def generate_bridge_name (now : Nat) (subnet : Str) : Str :=
  match sscanfSubnet subnet with
  | some (a, b, c, d, p) =>
    ('b' :: (padDec 3 a ++ padDec 3 b ++ padDec 3 c ++ padDec 3 d ++ padDec 2 p)).take 15
  | none => (str "bridge" ++ natDec (now % 10000)).take 15

/-- Model of `inet_pton(AF_INET, ..)`: four dotted decimal groups, each
one to three digits with no leading zero and value at most 255; the
result is the 32-bit address value in host order. -/
def ptonGroup (g : Str) : Option Nat :=
  if g = [] then none
  else if ¬ (g.all isDigitC) then none
  else if g.length > 3 then none
  else if g.length > 1 ∧ g.head? = some '0' then none
  else if digitsVal g > 255 then none
  else some (digitsVal g)

/-- Dotted-quad split and validation for `inet_pton`. -/
def ipv4Pton (s : Str) : Option Nat :=
  match (List.splitOn '.' s).map ptonGroup with
  | [some a, some b, some c, some d] => some (a * 16777216 + b * 65536 + c * 256 + d)
  | _ => none

/-- Model of `inet_ntoa` on a 32-bit value (host-order view; the
byte-order conversions in the C code cancel out at the value level). -/
def ipv4Ntoa (v : Nat) : Str :=
  natDec (v / 16777216 % 256) ++ '.' :: natDec (v / 65536 % 256)
    ++ '.' :: natDec (v / 256 % 256) ++ '.' :: natDec (v % 256)

/-- Subnet computation shared by `create_hidden_infrastructure` and
`setup_router_with_veth`: copy at most 63 characters of the address, cut
at the first `/` (prefix defaults to 24), mask, and print
`network/prefix`.  A negative or over-32 parsed prefix would be shift
undefined behaviour in C; the claims never exercise it, and the model
uses the mathematical shift on `Nat` after clamping at zero. -/
def computeSubnetC (ip : Str) : Option Str :=
  let ipCopy := ip.take 63
  let parts :=
    match strchrC ipCopy '/' with
    | some k => (ipCopy.take k, (atoiC (ipCopy.drop (k + 1))).toNat)
    | none => (ipCopy, 24)
  match ipv4Pton parts.1 with
  | none => none
  | some v =>
    let mask := (4294967295 <<< (32 - parts.2)) % 4294967296
    some (ipv4Ntoa (v &&& mask) ++ '/' :: natDec parts.2)

/-!
Per-interface veth setup (`setup_router_with_veth`,
`src/core/hidden_mesh_setup.c:410-508`).
-/

/-- Parsed interface record (struct `interface_t`), restricted to the
fields the veth-setup loop reads. -/
structure IfaceM where
  name : Str
  mac : Option Str := none
  mtu : Int := 1500
  up : Bool := false
  addresses : List AddressM := []
deriving Repr, DecidableEq

/-- One action taken by the veth-setup loop body: a `system()` call in the
host namespace, or a command queued into the router batch. -/
inductive Act
  | host (cmd : Str)
  | batch (cmd : Str)
deriving Repr, DecidableEq

/-- Truncation of a command formatted into a `cmd[512]` buffer. -/
def fmt511 (s : Str) : Str := s.take 511

/-- First address of the interface whose textual IP parses as IPv4; the C
loop breaks after the first address `inet_pton` accepts. -/
def firstIPv4Subnet : List AddressM → Option Str
  | [] => none
  | a :: rest =>
    match computeSubnetC a.ip with
    | some s => some s
    | none => firstIPv4Subnet rest

/-- Bridge-attachment actions for one interface: look up the bridge of the
first IPv4 subnet in the registry (`find_bridge_by_subnet`, abstracted as
`registryFind`); when found, enslave the hidden end and bring it up. -/
def bridgeActs (registryFind : Str → Option Str) (vethHidden : Str)
    (addrs : List AddressM) : List Act :=
  match firstIPv4Subnet addrs with
  | none => []
  | some subnet =>
    match registryFind subnet with
    | none => []
    | some bname =>
      [Act.host (fmt511 (str "ip netns exec hidden-mesh ip link set " ++ vethHidden
          ++ str " master " ++ bname)),
       Act.host (fmt511 (str "ip netns exec hidden-mesh ip link set " ++ vethHidden
          ++ str " up"))]

/-- Interface-configuration commands queued into the batch after the veth
ends are moved: MAC when given, every address with explicit broadcast
(`+` when absent), up when the facts say so, MTU when set and not 1500. -/
def ifaceConfigActs (iface : IfaceM) : List Act :=
  (match iface.mac with
   | some m => [Act.batch (fmt511 (str "ip link set " ++ iface.name ++ str " address " ++ m))]
   | none => [])
  ++ iface.addresses.map (fun a =>
      Act.batch (fmt511 (str "ip addr add " ++ a.ip ++ str " brd "
        ++ (a.broadcast.getD (str "+")) ++ str " dev " ++ iface.name)))
  ++ (if iface.up then [Act.batch (fmt511 (str "ip link set " ++ iface.name ++ str " up"))] else [])
  ++ (if iface.mtu ≠ 0 ∧ iface.mtu ≠ 1500 then
        [Act.batch (fmt511 (str "ip link set " ++ iface.name ++ str " mtu "
          ++ (if iface.mtu < 0 then '-' :: natDec iface.mtu.natAbs else natDec iface.mtu.natAbs)))]
      else [])

/-- Veth-pair creation command for one interface. -/
def vethCreateCmd (vethRouter vethHidden : Str) : Str :=
  fmt511 (str "ip link add " ++ vethRouter ++ str " type veth peer name " ++ vethHidden
    ++ str " 2>/dev/null")

/-- Model of the body of the per-interface loop of
`setup_router_with_veth` for a non-loopback interface.  `createOk` is the
outcome of the `system()` call creating the veth pair (`true` iff exit
status 0 — a pair that already exists makes the command fail); all
follow-up work is guarded by it. -/
def setupIfaceActs (registryFind : Str → Option Str) (ns routerCode ifaceCode : Str)
    (iface : IfaceM) (createOk : Bool) : List Act :=
  let vethRouter := (routerCode ++ ifaceCode ++ [ 'r' ]).take 15
  let vethHidden := (routerCode ++ ifaceCode ++ [ 'h' ]).take 15
  Act.host (vethCreateCmd vethRouter vethHidden) ::
  (if createOk then
    Act.host (fmt511 (str "ip link set " ++ vethRouter ++ str " netns " ++ ns)) ::
    Act.batch (fmt511 (str "ip link set " ++ vethRouter ++ str " name " ++ iface.name)) ::
    Act.host (fmt511 (str "ip link set " ++ vethHidden ++ str " netns hidden-mesh")) ::
    (bridgeActs registryFind vethHidden iface.addresses ++ ifaceConfigActs iface)
  else [])

/-!
Shared-memory registry (`src/core/shared_registry.h`).
-/

/-- Router-table entry (struct `shm_router_entry_t`, with `active`
represented by `Option` occupancy of the slot). -/
structure ShmRouterEntry where
  name : Str
  code : Str
deriving Repr, DecidableEq

/-- Interface-table entry (struct `shm_interface_entry_t`). -/
structure ShmIfaceEntry where
  routerCode : Str
  name : Str
  code : Str
deriving Repr, DecidableEq

/-- The shared registry (struct `shm_registry_t`); the fixed-size arrays
are total maps from slot index to optional occupancy. -/
structure ShmRegistry where
  routers : Nat → Option ShmRouterEntry
  routerCount : Nat
  nextRouterCode : Nat
  ifaces : Nat → Option ShmIfaceEntry
  ifaceCount : Nat
  nextIfaceCodes : Nat → Nat

/-- Capacity constants of shared_registry.h. -/
def MAX_ROUTERS : Nat := 1024

/-- Interface slots per router. -/
def MAX_IFACES_PER_ROUTER : Nat := 64

/-- Model of `clear_shared_registry` / a freshly zeroed segment. -/
def clearRegistry : ShmRegistry :=
  { routers := fun _ => none
    routerCount := 0
    nextRouterCode := 0
    ifaces := fun _ => none
    ifaceCount := 0
    nextIfaceCodes := fun _ => 0 }

/-- Search loop of `get_router_code_shm`: scan slots
`i < min MAX_ROUTERS (router_count + 10)` for an active entry whose name
matches. -/
def findRouterHit (reg : ShmRegistry) (name : Str) : Option Str :=
  (List.range (min MAX_ROUTERS (reg.routerCount + 10))).findSome? fun i =>
    match reg.routers i with
    | some e => if e.name = name then some e.code else none
    | none => none

/-- Model of `get_router_code_shm` (shared_registry.h:157-185).  A hit
returns the stored code; otherwise the first inactive slot receives a new
entry whose code is `"r%03d"` of the global counter, stored through an
8-byte buffer (7 characters) with the name truncated to 255 bytes. -/
def get_router_code_shm (reg : ShmRegistry) (name : Str) : Option Str × ShmRegistry :=
  match findRouterHit reg name with
  | some code => (some code, reg)
  | none =>
    if reg.routerCount ≥ MAX_ROUTERS then (none, reg)
    else
      match (List.range MAX_ROUTERS).find? (fun i => (reg.routers i).isNone) with
      | none => (none, reg)
      | some i =>
        let code := ('r' :: padDec 3 reg.nextRouterCode).take 7
        (some code,
         { reg with
             routers := fun j => if j = i then some ⟨name.take 255, code⟩ else reg.routers j
             routerCount := reg.routerCount + 1
             nextRouterCode := reg.nextRouterCode + 1 })

/-- Router-slot index recovered from a router code by
`get_interface_code_shm`: `atoi` of the characters after a leading `r`.
A negative `atoi` result would index outside the table (undefined
behaviour in C, apart from `-1` which is rejected); the model maps every
negative value to failure. -/
def ridxOfCode (routerCode : Str) : Option Nat :=
  match routerCode with
  | 'r' :: rest =>
    let v := atoiC rest
    if v < 0 ∨ v ≥ (MAX_ROUTERS : Int) then none else some v.toNat
  | _ => none

/-- Search loop of `get_interface_code_shm` over one router's 64-slot
block: an entry matches when it is active and both the stored router code
and the stored interface name equal the query. -/
def findIfaceHit (reg : ShmRegistry) (base : Nat) (routerCode ifname : Str) : Option Str :=
  (List.range MAX_IFACES_PER_ROUTER).findSome? fun i =>
    match reg.ifaces (base + i) with
    | some e => if e.routerCode = routerCode ∧ e.name = ifname then some e.code else none
    | none => none

/-- Model of `get_interface_code_shm` (shared_registry.h:187-229).  The
code of a new entry is `"i%03d"` of the per-router counter; the stored
router code is truncated to 7 bytes and the name to 255 bytes. -/
def get_interface_code_shm (reg : ShmRegistry) (routerCode ifname : Str) :
    Option Str × ShmRegistry :=
  match ridxOfCode routerCode with
  | none => (none, reg)
  | some ridx =>
    let base := ridx * MAX_IFACES_PER_ROUTER
    match findIfaceHit reg base routerCode ifname with
    | some code => (some code, reg)
    | none =>
      match (List.range MAX_IFACES_PER_ROUTER).find?
          (fun i => (reg.ifaces (base + i)).isNone) with
      | none => (none, reg)
      | some i =>
        let code := ('i' :: padDec 3 (reg.nextIfaceCodes ridx)).take 7
        (some code,
         { reg with
             ifaces := fun j =>
               if j = base + i then some ⟨routerCode.take 7, ifname.take 255, code⟩
               else reg.ifaces j
             ifaceCount := reg.ifaceCount + 1
             nextIfaceCodes := fun j =>
               if j = ridx then reg.nextIfaceCodes ridx + 1 else reg.nextIfaceCodes j })

/-- One get-or-create registry call. -/
inductive RegOp
  | getRouter (name : Str)
  | getIface (routerCode : Str) (ifname : Str)
deriving Repr, DecidableEq

/-- Execute one registry call. -/
def regStep (reg : ShmRegistry) : RegOp → Option Str × ShmRegistry
  | .getRouter n => get_router_code_shm reg n
  | .getIface rc n => get_interface_code_shm reg rc n

/-- Execute a sequence of registry calls, collecting the returned codes. -/
def regRun : ShmRegistry → List RegOp → List (Option Str) × ShmRegistry
  | reg, [] => ([], reg)
  | reg, op :: rest =>
    let s := regStep reg op
    let r := regRun s.2 rest
    (s.1 :: r.1, r.2)

/-!
Namespace reader (`src/utils/netns_reader.c`).
-/

/-- Command whitelist with hard-coded absolute paths
(netns_reader.c:42-51). -/
def allowed_commands : List (String × String) :=
  [("ip", "/usr/sbin/ip"),
   ("iptables-save", "/usr/sbin/iptables-save"),
   ("ip6tables-save", "/usr/sbin/ip6tables-save"),
   ("ipset", "/usr/sbin/ipset"),
   ("ss", "/usr/bin/ss"),
   ("netstat", "/usr/bin/netstat")]

/-- Argument whitelist for `ip` (netns_reader.c:54-61). -/
def allowed_ip_args : List String :=
  ["addr", "show", "route", "show", "table", "rule", "show", "link", "show",
   "-j", "-json", "-details"]

/-- Argument whitelist for `ipset` (netns_reader.c:63-66). -/
def allowed_ipset_args : List String := ["list", "-n", "-name"]

/-- Model of `get_command_path`. -/
def get_command_path (cmd : String) : Option String :=
  (allowed_commands.find? (fun p => p.1 = cmd)).map (·.2)

/-- The check `strtol(arg, &endptr, 10); *endptr == '\0'` used for table
IDs: leading whitespace, an optional sign and a digit run consume the
whole string.  Note that a string with no digits at all (including the
empty string) also passes, since `strtol` then leaves `endptr` at the
start. -/
def isNumericArg (s : String) : Bool :=
  let s1 := s.data.dropWhile isSpaceC
  let s2 := match s1 with
            | '-' :: r => r
            | '+' :: r => r
            | r => r
  s2.dropWhile isDigitC = []

/-- Per-argument loop of `validate_args` for `ip`: each argument must be
whitelisted, or numeric and directly preceded by `table`. -/
def ipArgsOk : Option String → List String → Bool
  | _, [] => true
  | prev, a :: rest =>
    (decide (a ∈ allowed_ip_args) || (prev = some "table" && isNumericArg a))
      && ipArgsOk (some a) rest

/-- Model of `validate_args` (netns_reader.c:79-129).  Commands other
than `ip`, `ipset`, `iptables-save` and `ip6tables-save` (`ss`,
`netstat`) have no argument restrictions. -/
def validate_args (cmd : String) (args : List String) : Bool :=
  if cmd = "ip" then ipArgsOk none args
  else if cmd = "ipset" then args.all (fun a => decide (a ∈ allowed_ipset_args))
  else if cmd = "iptables-save" ∨ cmd = "ip6tables-save" then args.isEmpty
  else true

/-- Environment of one `netns_reader` invocation: results of the
filesystem and kernel interactions. -/
structure NetnsEnv where
  listOk : Bool
  nsStat : String → Bool
  openOk : Bool
  setnsOk : Bool
  dropOk : Bool

/-- Model of `validate_namespace` (netns_reader.c:132-148): reject names
containing `/` or `..`, then require the `stat` of
`/var/run/netns/<name>` to succeed. -/
def validate_namespace (env : NetnsEnv) (ns : String) : Bool :=
  if strstr ns.data (str "/") ≠ none ∨ strstr ns.data (str "..") ≠ none then false
  else env.nsStat ns

/-- Observable outcome of one `netns_reader` invocation.  `execed` is
reached exactly when control arrives at the `execv` call;
`privDropped` records that `setgid`/`setuid` back to the real IDs
succeeded beforehand. -/
inductive NetnsOutcome
  | exited (code : Int)
  | listed
  | execed (path : String) (argv : List String) (privDropped : Bool)
deriving Repr, DecidableEq

/-- Model of `main` of netns_reader.c (lines 213-267) composed with
`enter_namespace_and_exec` (lines 170-211).  `argv` includes the program
name in position zero.  At most `MAX_ARGS - 2 = 30` command arguments are
forwarded. -/
def netnsMain (env : NetnsEnv) (argv : List String) : NetnsOutcome :=
  match argv with
  | [] => .exited 1
  | [_] => .exited 1
  | [_, a1] =>
    if a1 = "--list" then (if env.listOk then .listed else .exited 1)
    else .exited 1
  | _ :: a1 :: cmd :: cmdArgs =>
    if a1 = "--list" then (if env.listOk then .listed else .exited 1)
    else if ¬ validate_namespace env a1 then .exited 1
    else
      match get_command_path cmd with
      | none => .exited 1
      | some path =>
        if ¬ validate_args cmd (cmdArgs.take 30) then .exited 1
        else if ¬ env.openOk then .exited 1
        else if ¬ env.setnsOk then .exited 1
        else if ¬ env.dropOk then .exited 1
        else .execed path (cmd :: cmdArgs.take 30) true

/-!
Topology-engine entry point (`main` of `src/core/hidden_mesh_setup.c`,
lines 633-693 for the decision structure relevant to the claims).
-/

/-- Outcome of the argument scan and root check of the topology engine's
`main`.  `proceedSetup` marks the control point after the `geteuid`
check, where loading and Phase A/B begin; `cleanupExit0` marks the
`--cleanup` branch, which runs teardown (when facts load) and returns 0
before the root check is ever reached. -/
inductive MeshOutcome
  | helpExit0
  | cleanupExit0 (ranTeardown : Bool)
  | rootCheckFailExit1
  | proceedSetup
deriving Repr, DecidableEq

/-- Decision after the argument loop falls off the end: the `geteuid`
check. -/
def meshAfterLoop (euid : Nat) : MeshOutcome :=
  if euid ≠ 0 then .rootCheckFailExit1 else .proceedSetup

/-- Argument-scan loop of `main`: `-v`/`--verbose` and `-p`/`--parallel`
only set flags, `--limit` with a following argument consumes it (with no
following argument its test `i + 1 < argc` fails and the argument is
ignored, like any unknown argument), `--cleanup` and `-h`/`--help`
return immediately.  After the loop the effective UID is checked.  The
lookahead of `--limit` is expressed by matching two list elements. -/
def meshScan (euid : Nat) (loadOk : Bool) : List String → MeshOutcome
  | [] => meshAfterLoop euid
  | [a] =>
    if a = "-v" ∨ a = "--verbose" then meshAfterLoop euid
    else if a = "-p" ∨ a = "--parallel" then meshAfterLoop euid
    else if a = "--cleanup" then .cleanupExit0 loadOk
    else if a = "-h" ∨ a = "--help" then .helpExit0
    else meshAfterLoop euid
  | a :: b :: rest =>
    if a = "-v" ∨ a = "--verbose" then meshScan euid loadOk (b :: rest)
    else if a = "-p" ∨ a = "--parallel" then meshScan euid loadOk (b :: rest)
    else if a = "--limit" then meshScan euid loadOk rest
    else if a = "--cleanup" then .cleanupExit0 loadOk
    else if a = "-h" ∨ a = "--help" then .helpExit0
    else meshScan euid loadOk (b :: rest)

/-- Decision taken by the topology engine's `main` for a given argument
vector, effective UID, and facts-load result. -/
def meshMainOutcome (args : List String) (euid : Nat) (loadOk : Bool) : MeshOutcome :=
  meshScan euid loadOk args

/-- Exit status attached to each decision (`proceedSetup` continues into
the setup path, whose later status is not part of these claims). -/
def meshOutcomeExit : MeshOutcome → Option Int
  | .helpExit0 => some 0
  | .cleanupExit0 _ => some 0
  | .rootCheckFailExit1 => some 1
  | .proceedSetup => none

/-!
Packet-filter and IP-set restore (`apply_iptables_with_shm` and
`apply_ipset_with_shm`, `src/core/router_facts_loader.c:1286-1388`).
-/

/-- Observable side effects of one apply call. -/
inductive ShmAct
  | shmCreate (name : Str)
  | runRestore (cmd : Str)
deriving Repr, DecidableEq

/-- Whitespace set of the emptiness check in both apply functions:
exactly space, tab, newline, carriage return. -/
def isWs4 (c : Char) : Bool :=
  c = ' ' || c = '\t' || c = '\n' || c = '\r'

/-- Common model of `apply_iptables_with_shm` and `apply_ipset_with_shm`.
`raw`/`size` are the `raw_content`/`content_size` fields (a NULL pointer
is `none`); `now` stands for `time(NULL)`; `shmOk` merges the
`shm_open`/`ftruncate`/`mmap` steps (on failure no object persists and
`-1` is returned before any restore); `sysResult` is the exit status of
the `system()` running the restore pipeline. -/
def applyRestoreWithShm (toolTag restoreTool ns : Str) (raw : Option Str) (size : Nat)
    (now : Nat) (shmOk : Bool) (sysResult : Int) : List ShmAct × Int :=
  match raw with
  | none => ([], 0)
  | some content =>
    if content.dropWhile isWs4 = [] ∨ size = 0 then ([], 0)
    else
      let shmName := (str "/tsim_" ++ toolTag ++ [ '_' ] ++ ns ++ [ '_' ] ++ natDec now).take 255
      if ¬ shmOk then ([], -1)
      else
        let cmd := (str "ip netns exec " ++ ns ++ [ ' ' ] ++ restoreTool
          ++ str " < /dev/shm" ++ shmName).take 511
        ([ShmAct.shmCreate shmName, ShmAct.runRestore cmd], sysResult)

/-- Model of `apply_iptables_with_shm`. -/
def apply_iptables_with_shm (ns : Str) (raw : Option Str) (size : Nat)
    (now : Nat) (shmOk : Bool) (sysResult : Int) : List ShmAct × Int :=
  applyRestoreWithShm (str "iptables") (str "iptables-restore") ns raw size now shmOk sysResult

/-- Model of `apply_ipset_with_shm`. -/
def apply_ipset_with_shm (ns : Str) (raw : Option Str) (size : Nat)
    (now : Nat) (shmOk : Bool) (sysResult : Int) : List ShmAct × Int :=
  applyRestoreWithShm (str "ipset") (str "ipset restore") ns raw size now shmOk sysResult

/-!
Statement-side definitions used by the claim theorems.
-/

/-- The script line the specification promises for one added batch
command: the command itself, prefixed with `ip netns exec <ns> ` when a
namespace is given, followed by a newline, with no truncation. -/
def claimedBatchLine (ns : Option Str) (command : Str) : Str :=
  match ns with
  | some n => str "ip netns exec " ++ n ++ str " " ++ command ++ [ '\n' ]
  | none => command ++ [ '\n' ]

/-- Canonical textual form of a subnet `A.B.C.D/P`. -/
def canonicalSubnet (a b c d p : Nat) : Str :=
  natDec a ++ ('.' :: (natDec b ++ ('.' :: (natDec c ++ ('.' :: (natDec d ++ ('/' :: natDec p)))))))

/-- Well-formedness of one registry call: the strings fit the stored
field widths, so storing does not truncate them (router names are file
stems of at most 63 bytes and router codes are 4 bytes in the program). -/
def regOpWF : RegOp → Prop
  | .getRouter n => n.length ≤ 255
  | .getIface rc n => rc.length ≤ 7 ∧ n.length ≤ 255

/-- A router name is assigned a code in a registry state when some active
slot stores that pair. -/
def routerAssigned (reg : ShmRegistry) (name code : Str) : Prop :=
  ∃ i, i < MAX_ROUTERS ∧ reg.routers i = some ⟨name, code⟩

/-- An interface pair is assigned a code in a registry state when some
slot of the block selected by the router code stores it. -/
def ifaceAssigned (reg : ShmRegistry) (routerCode ifname code : Str) : Prop :=
  ∃ ridx i, ridxOfCode routerCode = some ridx ∧ i < MAX_IFACES_PER_ROUTER ∧
    reg.ifaces (ridx * MAX_IFACES_PER_ROUTER + i) = some ⟨routerCode, ifname, code⟩

/-- Occupancy invariant of the registry maintained by the get-or-create
operations: router slots are filled contiguously in lockstep with the
code counter, the code stored at slot `i` is `r%03d` of `i`, names are
unique across slots and untruncated, and each interface block behaves the
same way per router with `(router code, interface name)` unique within
the block. -/
structure RegInv (reg : ShmRegistry) : Prop where
  rcount_le : reg.routerCount ≤ MAX_ROUTERS
  rnext : reg.nextRouterCode = reg.routerCount
  rfill : ∀ i, i < reg.routerCount → ∃ e, reg.routers i = some e
  rfree : ∀ i, reg.routerCount ≤ i → reg.routers i = none
  rcode : ∀ i e, reg.routers i = some e → e.code = ('r' :: padDec 3 i).take 7
  rname_inj : ∀ i j ei ej, reg.routers i = some ei → reg.routers j = some ej →
    i ≠ j → ei.name ≠ ej.name
  icount_le : ∀ b, b < MAX_ROUTERS → reg.nextIfaceCodes b ≤ MAX_IFACES_PER_ROUTER
  ifill : ∀ b i, b < MAX_ROUTERS → i < reg.nextIfaceCodes b →
    ∃ e, reg.ifaces (b * MAX_IFACES_PER_ROUTER + i) = some e
  ifree : ∀ b i, b < MAX_ROUTERS → reg.nextIfaceCodes b ≤ i → i < MAX_IFACES_PER_ROUTER →
    reg.ifaces (b * MAX_IFACES_PER_ROUTER + i) = none
  icode : ∀ b i e, b < MAX_ROUTERS → i < MAX_IFACES_PER_ROUTER →
    reg.ifaces (b * MAX_IFACES_PER_ROUTER + i) = some e →
    e.code = ('i' :: padDec 3 i).take 7
  ikey_inj : ∀ b i j ei ej, b < MAX_ROUTERS → i < MAX_IFACES_PER_ROUTER →
    j < MAX_IFACES_PER_ROUTER →
    reg.ifaces (b * MAX_IFACES_PER_ROUTER + i) = some ei →
    reg.ifaces (b * MAX_IFACES_PER_ROUTER + j) = some ej →
    i ≠ j → (ei.routerCode, ei.name) ≠ (ej.routerCode, ej.name)

/-- Concrete facts content whose only routing section is the main
`routing_table`. -/
def c1FactsMain : Str :=
  str "hostname output\n=== TSIM_SECTION_START:routing_table ===\n---\ndefault via 10.1.1.1 dev eth0\n10.1.1.0/24 dev eth0 proto kernel\nEXIT_CODE:0\n=== TSIM_SECTION_END:routing_table ===\n"

/-- Concrete facts content with a `routing_table_200` section. -/
def c1FactsT200 : Str :=
  str "=== TSIM_SECTION_START:routing_table_200 ===\n---\n10.9.0.0/16 via 10.1.1.1 dev eth0\nEXIT_CODE:0\n=== TSIM_SECTION_END:routing_table_200 ===\n"

/-- Canonical layout after the start marker of one facts section whose
body is terminated by the `EXIT_CODE` sentinel: the marker line, the
three-dash line, the body, and the sentinel with whatever follows it. -/
def restCanonical (name body tail : Str) : Str :=
  sectionStartMarker name ++ (str "\n---\n" ++ (body ++ (exitCodeSentinel ++ tail)))

/-- Canonical layout after the start marker when the body runs straight
into the end marker (no `EXIT_CODE` line before it). -/
def restCanonicalEnd (name body tail : Str) : Str :=
  sectionStartMarker name ++ (str "\n---\n" ++ (body ++ (sectionEndMarker name ++ tail)))

/-!
General lemmas about the string primitives.
-/

theorem strstr_isPrefix : ∀ (s pat : Str) (i : Nat), strstr s pat = some i →
    pat.isPrefixOf (s.drop i) = true := by
  intro s
  induction s with
  | nil =>
    intro pat i h
    by_cases hp : pat.isPrefixOf ([] : Str)
    · simp only [strstr, hp, if_true, Option.some.injEq] at h
      subst h
      simpa using hp
    · simp [strstr, hp] at h
  | cons c t ih =>
    intro pat i h
    by_cases hp : pat.isPrefixOf (c :: t)
    · simp only [strstr, hp, if_true, Option.some.injEq] at h
      subst h
      simpa using hp
    · simp only [strstr, hp, if_false] at h
      cases hts : strstr t pat with
      | none => rw [hts] at h; simp at h
      | some j =>
        rw [hts] at h
        simp at h
        subst h
        simpa using ih pat j hts

theorem strstr_min : ∀ (s pat : Str) (i : Nat), strstr s pat = some i →
    ∀ k, k < i → pat.isPrefixOf (s.drop k) = false := by
  intro s
  induction s with
  | nil =>
    intro pat i h k hk
    by_cases hp : pat.isPrefixOf ([] : Str)
    · simp only [strstr, hp, if_true, Option.some.injEq] at h
      omega
    · simp [strstr, hp] at h
  | cons c t ih =>
    intro pat i h k hk
    by_cases hp : pat.isPrefixOf (c :: t)
    · simp only [strstr, hp, if_true, Option.some.injEq] at h
      omega
    · simp only [strstr, hp, if_false] at h
      cases hts : strstr t pat with
      | none => rw [hts] at h; simp at h
      | some j =>
        rw [hts] at h
        simp at h
        subst h
        match k with
        | 0 =>
          simp only [List.drop_zero]
          exact Bool.eq_false_iff.mpr hp
        | k + 1 =>
          have := ih pat j hts k (by omega)
          simpa using this

theorem strstr_eq_some_of : ∀ (s pat : Str) (i : Nat),
    pat.isPrefixOf (s.drop i) = true →
    (∀ k, k < i → pat.isPrefixOf (s.drop k) = false) →
    strstr s pat = some i := by
  intro s
  induction s with
  | nil =>
    intro pat i h1 h2
    have hi : i = 0 := by
      by_contra hne
      have h0 := h2 0 (by omega)
      simp only [List.drop_nil, List.drop_zero] at h1 h0
      rw [h1] at h0
      exact absurd h0 (by decide)
    subst hi
    simp only [List.drop_nil, List.drop_zero] at h1
    simp [strstr, h1]
  | cons c t ih =>
    intro pat i h1 h2
    match i with
    | 0 =>
      simp only [List.drop_zero] at h1
      simp [strstr, h1]
    | i + 1 =>
      have hp : pat.isPrefixOf (c :: t) = false := by
        have := h2 0 (by omega)
        simpa using this
      have ht : strstr t pat = some i := by
        apply ih
        · simpa using h1
        · intro k hk
          have := h2 (k + 1) (by omega)
          simpa using this
      simp [strstr, hp, ht]

theorem strstr_eq_none_of (s pat : Str)
    (h : ∀ k, pat.isPrefixOf (s.drop k) = false) : strstr s pat = none := by
  cases hs : strstr s pat with
  | none => rfl
  | some i =>
    have := strstr_isPrefix s pat i hs
    rw [h i] at this
    exact absurd this (by simp)

theorem strstr_prefix_zero (s pat : Str) (h : pat.isPrefixOf s = true) :
    strstr s pat = some 0 := by
  cases s with
  | nil => simp [strstr, h]
  | cons c t => simp [strstr, h]

/-- The first occurrence of `pat` in `a ++ b` is at `a.length` as soon as
`pat` heads `b` and no occurrence starts inside `a`. -/
theorem strstr_append_at (a b pat : Str) (hb : pat.isPrefixOf b = true)
    (ha : ∀ k, k < a.length → pat.isPrefixOf ((a ++ b).drop k) = false) :
    strstr (a ++ b) pat = some a.length := by
  apply strstr_eq_some_of
  · rw [List.drop_left]
    exact hb
  · exact ha

theorem takeWhile_append_of_all {p : Char → Bool} (a : Str) (b0 : Char) (bs : Str)
    (ha : ∀ c ∈ a, p c = true) (hb : p b0 = false) :
    (a ++ b0 :: bs).takeWhile p = a := by
  induction a with
  | nil => simp [List.takeWhile, hb]
  | cons x xs ih =>
    have hx : p x = true := ha x (by simp)
    simp only [List.cons_append, List.takeWhile_cons, hx, if_true]
    rw [ih (fun c hc => ha c (by simp [hc]))]

theorem dropWhile_append_of_head {p : Char → Bool} (a : Str) (x : Char) (xs : Str)
    (hx : p x = false) (ha : a = x :: xs) (b : Str) :
    (a ++ b).dropWhile p = a ++ b := by
  subst ha
  simp [List.dropWhile, hx]

/-!
Lemmas about decimal digit strings.
-/

theorem natDecAux_congr : ∀ (fuel1 fuel2 n : Nat), n < fuel1 → n < fuel2 →
    natDecAux fuel1 n = natDecAux fuel2 n := by
  intro fuel1
  induction fuel1 with
  | zero => omega
  | succ f ih =>
    intro fuel2 n h1 h2
    match fuel2 with
    | fuel2 + 1 =>
      simp only [natDecAux]
      by_cases hn : n < 10
      · rw [if_pos hn, if_pos hn]
      · have hdiv : n / 10 < n := Nat.div_lt_self (by omega) (by omega)
        rw [if_neg hn, if_neg hn, ih fuel2 (n / 10) (by omega) (by omega)]

/-- Unfolding equation of `natDec`. -/
theorem natDec_eq (n : Nat) :
    natDec n = if n < 10 then [digitChar n] else natDec (n / 10) ++ [digitChar (n % 10)] := by
  show natDecAux (n + 1) n = _
  rw [natDecAux]
  by_cases hn : n < 10
  · rw [if_pos hn, if_pos hn]
  · have hdiv : n / 10 < n := Nat.div_lt_self (by omega) (by omega)
    rw [if_neg hn, if_neg hn,
      natDecAux_congr n (n / 10 + 1) (n / 10) (by omega) (by omega)]
    rfl

theorem digitChar_isDigit (d : Nat) (h : d < 10) : isDigitC (digitChar d) = true := by
  interval_cases d <;> decide

theorem digitChar_toNat (d : Nat) (h : d < 10) : (digitChar d).toNat = 48 + d := by
  interval_cases d <;> decide

theorem natDec_ne_nil (n : Nat) : natDec n ≠ [] := by
  rw [natDec_eq]
  split
  · simp
  · simp

theorem natDec_all_digits (n : Nat) : ∀ c ∈ natDec n, isDigitC c = true := by
  induction n using Nat.strong_induction_on with
  | _ n ih =>
    rw [natDec_eq]
    split
    · intro c hc
      simp only [List.mem_singleton] at hc
      subst hc
      exact digitChar_isDigit n (by omega)
    · intro c hc
      simp only [List.mem_append, List.mem_singleton] at hc
      rcases hc with hc | hc
      · exact ih (n / 10) (Nat.div_lt_self (by omega) (by omega)) c hc
      · subst hc
        exact digitChar_isDigit (n % 10) (Nat.mod_lt _ (by omega))

theorem digitsVal_append_singleton (ds : Str) (c : Char) :
    digitsVal (ds ++ [c]) = digitsVal ds * 10 + (c.toNat - 48) := by
  simp [digitsVal, List.foldl_append]

theorem digitsVal_natDec (n : Nat) : digitsVal (natDec n) = n := by
  induction n using Nat.strong_induction_on with
  | _ n ih =>
    rw [natDec_eq]
    split
    · rename_i h
      simp [digitsVal, digitChar_toNat n h]
    · rename_i h
      rw [digitsVal_append_singleton, ih (n / 10) (Nat.div_lt_self (by omega) (by omega)),
        digitChar_toNat (n % 10) (Nat.mod_lt _ (by omega))]
      omega

theorem natDec_length_le (k : Nat) : ∀ n, n < 10 ^ k → 1 ≤ k → (natDec n).length ≤ k := by
  induction k with
  | zero => intro n _ hk; omega
  | succ k ih =>
    intro n hn _
    rw [natDec_eq]
    split
    · simp only [List.length_singleton]
      omega
    · rename_i h
      have hk : 1 ≤ k := by
        rcases Nat.eq_zero_or_pos k with h0 | h0
        · subst h0
          norm_num at hn
          omega
        · omega
      have hdiv : n / 10 < 10 ^ k := by
        rw [Nat.div_lt_iff_lt_mul (by omega : (0 : Nat) < 10)]
        have h10 : 10 ^ (k + 1) = 10 ^ k * 10 := Nat.pow_succ 10 k
        omega
      have := ih (n / 10) hdiv hk
      simp only [List.length_append, List.length_singleton]
      omega

theorem padDec_length (w n : Nat) (h : (natDec n).length ≤ w) :
    (padDec w n).length = w := by
  simp only [padDec, List.length_append, List.length_replicate]
  omega

theorem digitsVal_padDec (w n : Nat) : digitsVal (padDec w n) = n := by
  rw [padDec]
  generalize (w - (natDec n).length) = k
  induction k with
  | zero => simpa using digitsVal_natDec n
  | succ k ih =>
    rw [List.replicate_succ]
    simpa [digitsVal] using ih

theorem padDec_inj (w m n : Nat) (h : padDec w m = padDec w n) : m = n := by
  have := digitsVal_padDec w m
  rw [h, digitsVal_padDec] at this
  omega

/-!
Claim C10 — the apply operations skip empty packet-filter and IP-set
blocks.
-/

/-- C10: for every namespace and every packet-filter or IP-set block whose
raw content is absent, has size zero, or consists only of spaces, tabs,
newlines and carriage returns, the apply operations return 0 with no
shared-memory object created and no restore invoked; a restore is run
only when the block holds a non-whitespace character. -/
theorem C10_apply_empty_skips :
    (∀ tag tool ns size now shmOk sys,
       applyRestoreWithShm tag tool ns none size now shmOk sys = ([], 0))
  ∧ (∀ tag tool ns c size now shmOk sys, (∀ ch ∈ c, isWs4 ch = true) →
       applyRestoreWithShm tag tool ns (some c) size now shmOk sys = ([], 0))
  ∧ (∀ tag tool ns c now shmOk sys,
       applyRestoreWithShm tag tool ns (some c) 0 now shmOk sys = ([], 0))
  ∧ (∀ tag tool ns c size now shmOk sys cmd,
       ShmAct.runRestore cmd ∈ (applyRestoreWithShm tag tool ns (some c) size now shmOk sys).1 →
       size ≠ 0 ∧ ∃ ch ∈ c, isWs4 ch = false) := by
  refine ⟨fun tag tool ns size now shmOk sys => rfl, ?_, ?_, ?_⟩
  · intro tag tool ns c size now shmOk sys hws
    have hnil : c.dropWhile isWs4 = [] := by
      rw [List.dropWhile_eq_nil_iff]
      exact hws
    simp [applyRestoreWithShm, hnil]
  · intro tag tool ns c now shmOk sys
    simp [applyRestoreWithShm]
  · intro tag tool ns c size now shmOk sys cmd hmem
    by_cases hc : c.dropWhile isWs4 = [] ∨ size = 0
    · have h1 : applyRestoreWithShm tag tool ns (some c) size now shmOk sys = ([], 0) := by
        simp only [applyRestoreWithShm]
        rw [if_pos hc]
      rw [h1] at hmem
      simp at hmem
    · push_neg at hc
      refine ⟨hc.2, ?_⟩
      by_contra hall
      push_neg at hall
      have : c.dropWhile isWs4 = [] := by
        rw [List.dropWhile_eq_nil_iff]
        intro x hx
        have := hall x hx
        cases hb : isWs4 x with
        | true => rfl
        | false => exact absurd hb this
      exact hc.1 this

/-- Witness for C10 at a concrete whitespace-only block. -/
theorem C10_apply_empty_skips_witness :
    applyRestoreWithShm (str "iptables") (str "iptables-restore") (str "r1")
      (some (str " \t\n\r ")) 5 42 true 0 = ([], 0) :=
  C10_apply_empty_skips.2.1 _ _ _ _ _ _ _ _ (by decide)

/-!
Claim C4 — root check of the topology engine.  The claim fails: the
`--cleanup` branch of the argument loop runs before the `geteuid` check,
performs teardown and exits 0 for any effective UID.
-/

/-- C4 counterexample: invoked by a non-root user (euid 1000) with
`--cleanup` and loadable facts, the engine runs teardown and exits 0,
not 1 as the claim requires. -/
theorem C4_counterexample :
    meshMainOutcome ["--cleanup"] 1000 true = MeshOutcome.cleanupExit0 true
    ∧ meshMainOutcome ["--cleanup"] 1000 true ≠ MeshOutcome.rootCheckFailExit1
    ∧ meshOutcomeExit (MeshOutcome.cleanupExit0 true) = some 0 := by
  refine ⟨rfl, ?_, rfl⟩
  decide

/-- C4 amended: a non-root invocation never reaches the setup path; when
the argument vector contains none of `--cleanup`, `-h`, `--help`, a
non-root invocation exits 1 having performed neither setup nor teardown;
and an invocation whose scan reaches `--cleanup` performs teardown (when
the facts load) and exits 0 regardless of the effective UID. -/
theorem C4_amended :
    (∀ args euid loadOk, euid ≠ 0 →
       meshMainOutcome args euid loadOk ≠ MeshOutcome.proceedSetup)
  ∧ (∀ args euid loadOk, euid ≠ 0 → "--cleanup" ∉ args → "-h" ∉ args → "--help" ∉ args →
       meshMainOutcome args euid loadOk = MeshOutcome.rootCheckFailExit1)
  ∧ (∀ euid loadOk, meshMainOutcome ["--cleanup"] euid loadOk = MeshOutcome.cleanupExit0 loadOk)
    := by
  have hbase : ∀ euid : Nat, euid ≠ 0 → meshAfterLoop euid = MeshOutcome.rootCheckFailExit1 := by
    intro euid he
    simp [meshAfterLoop, he]
  have key : ∀ (n : Nat) (args : List String) (euid : Nat) (loadOk : Bool),
      args.length ≤ n → euid ≠ 0 →
      (meshScan euid loadOk args ≠ MeshOutcome.proceedSetup)
      ∧ ("--cleanup" ∉ args → "-h" ∉ args → "--help" ∉ args →
         meshScan euid loadOk args = MeshOutcome.rootCheckFailExit1) := by
    intro n
    induction n with
    | zero =>
      intro args euid loadOk hl he
      have hargs : args = [] := List.eq_nil_of_length_eq_zero (by omega)
      subst hargs
      rw [meshScan, hbase euid he]
      exact ⟨by decide, fun _ _ _ => rfl⟩
    | succ n ih =>
      intro args euid loadOk hl he
      match args with
      | [] =>
        rw [meshScan, hbase euid he]
        exact ⟨by decide, fun _ _ _ => rfl⟩
      | [a] =>
        rw [meshScan]
        by_cases h1 : a = "-v" ∨ a = "--verbose"
        · rw [if_pos h1, hbase euid he]
          exact ⟨by decide, fun _ _ _ => rfl⟩
        · rw [if_neg h1]
          by_cases h2 : a = "-p" ∨ a = "--parallel"
          · rw [if_pos h2, hbase euid he]
            exact ⟨by decide, fun _ _ _ => rfl⟩
          · rw [if_neg h2]
            by_cases h3 : a = "--cleanup"
            · rw [if_pos h3]
              refine ⟨fun h => MeshOutcome.noConfusion h, fun hc _ _ => absurd ?_ hc⟩
              rw [h3]
              exact List.mem_cons_self _ _
            · rw [if_neg h3]
              by_cases h4 : a = "-h" ∨ a = "--help"
              · rw [if_pos h4]
                refine ⟨by decide, fun _ hh hH => ?_⟩
                rcases h4 with h4 | h4
                · exact absurd (h4 ▸ List.mem_cons_self _ _) hh
                · exact absurd (h4 ▸ List.mem_cons_self _ _) hH
              · rw [if_neg h4, hbase euid he]
                exact ⟨by decide, fun _ _ _ => rfl⟩
      | a :: b :: rest =>
        have hlen1 : (b :: rest).length ≤ n := by
          simp only [List.length_cons] at hl ⊢
          omega
        have hlen2 : rest.length ≤ n := by
          simp only [List.length_cons] at hl
          omega
        have ihtail := ih (b :: rest) euid loadOk hlen1 he
        have ihtail2 := ih rest euid loadOk hlen2 he
        have hmem1 : ∀ x : String, x ∉ a :: b :: rest → x ∉ b :: rest := by
          intro x hx h
          exact hx (List.mem_cons_of_mem _ h)
        have hmem2 : ∀ x : String, x ∉ a :: b :: rest → x ∉ rest := by
          intro x hx h
          exact hx (List.mem_cons_of_mem _ (List.mem_cons_of_mem _ h))
        rw [meshScan]
        by_cases h1 : a = "-v" ∨ a = "--verbose"
        · rw [if_pos h1]
          exact ⟨ihtail.1, fun hc hh hH =>
            ihtail.2 (hmem1 _ hc) (hmem1 _ hh) (hmem1 _ hH)⟩
        · rw [if_neg h1]
          by_cases h2 : a = "-p" ∨ a = "--parallel"
          · rw [if_pos h2]
            exact ⟨ihtail.1, fun hc hh hH =>
              ihtail.2 (hmem1 _ hc) (hmem1 _ hh) (hmem1 _ hH)⟩
          · rw [if_neg h2]
            by_cases h3 : a = "--limit"
            · rw [if_pos h3]
              exact ⟨ihtail2.1, fun hc hh hH =>
                ihtail2.2 (hmem2 _ hc) (hmem2 _ hh) (hmem2 _ hH)⟩
            · rw [if_neg h3]
              by_cases h4 : a = "--cleanup"
              · rw [if_pos h4]
                refine ⟨fun h => MeshOutcome.noConfusion h, fun hc _ _ => absurd ?_ hc⟩
                rw [h4]
                exact List.mem_cons_self _ _
              · rw [if_neg h4]
                by_cases h5 : a = "-h" ∨ a = "--help"
                · rw [if_pos h5]
                  refine ⟨by decide, fun _ hh hH => ?_⟩
                  rcases h5 with h5 | h5
                  · exact absurd (h5 ▸ List.mem_cons_self _ _) hh
                  · exact absurd (h5 ▸ List.mem_cons_self _ _) hH
                · rw [if_neg h5]
                  exact ⟨ihtail.1, fun hc hh hH =>
                    ihtail.2 (hmem1 _ hc) (hmem1 _ hh) (hmem1 _ hH)⟩
  refine ⟨fun args euid loadOk he => (key args.length args euid loadOk le_rfl he).1,
          fun args euid loadOk he => (key args.length args euid loadOk le_rfl he).2,
          fun euid loadOk => rfl⟩

/-- Witness for C4 amended at a concrete non-root invocation. -/
theorem C4_amended_witness :
    meshMainOutcome ["-v", "-p"] 1000 true = MeshOutcome.rootCheckFailExit1 :=
  C4_amended.2.1 ["-v", "-p"] 1000 true (by decide) (by decide) (by decide) (by decide)

/-!
Claim C3 — safety of the namespace-reader helper.
-/

theorem get_command_path_mem (cmd p : String) (h : get_command_path cmd = some p) :
    p ∈ allowed_commands.map Prod.snd := by
  simp only [get_command_path, Option.map_eq_some'] at h
  obtain ⟨pair, hfind, hp⟩ := h
  subst hp
  exact List.mem_map_of_mem _ (List.mem_of_find?_eq_some hfind)

/-- C3: any reached exec uses one of the six hard-coded whitelisted
absolute paths (none of which is a shell) and happens only after the
privilege drop succeeded; too few arguments, an invalid or absent
namespace, an unknown command, or a disallowed argument all exit with
status 1 without reaching an exec. -/
theorem C3_netns_reader_safety :
    (∀ env argv path args d, netnsMain env argv = NetnsOutcome.execed path args d →
       path ∈ allowed_commands.map Prod.snd ∧ d = true)
  ∧ ("/bin/sh" ∉ allowed_commands.map Prod.snd ∧ "/bin/bash" ∉ allowed_commands.map Prod.snd
      ∧ "/bin/dash" ∉ allowed_commands.map Prod.snd)
  ∧ (∀ env prog, netnsMain env [prog] = NetnsOutcome.exited 1)
  ∧ (∀ env prog ns cmd rest, ns ≠ "--list" → validate_namespace env ns = false →
       netnsMain env (prog :: ns :: cmd :: rest) = NetnsOutcome.exited 1)
  ∧ (∀ env prog ns cmd rest, ns ≠ "--list" → get_command_path cmd = none →
       netnsMain env (prog :: ns :: cmd :: rest) = NetnsOutcome.exited 1)
  ∧ (∀ env prog ns cmd rest, ns ≠ "--list" → validate_args cmd (rest.take 30) = false →
       netnsMain env (prog :: ns :: cmd :: rest) = NetnsOutcome.exited 1) := by
  refine ⟨?_, by decide, ?_, ?_, ?_, ?_⟩
  · intro env argv path args d h
    match argv with
    | [] => simp [netnsMain] at h
    | [a0] => simp [netnsMain] at h
    | [a0, a1] =>
      simp only [netnsMain] at h
      split at h
      · split at h <;> simp at h
      · simp at h
    | a0 :: a1 :: cmd :: cmdArgs =>
      simp only [netnsMain] at h
      split at h
      · split at h <;> simp at h
      · split at h
        · simp at h
        · split at h
          · simp at h
          · rename_i p hp
            split at h
            · simp at h
            · split at h
              · simp at h
              · split at h
                · simp at h
                · split at h
                  · simp at h
                  · injection h with h1 h2 h3
                    exact ⟨h1 ▸ get_command_path_mem cmd _ hp, h3.symm⟩
  · intro env prog
    rfl
  · intro env prog ns cmd rest hns hv
    simp [netnsMain, hns, hv]
  · intro env prog ns cmd rest hns hp
    by_cases hv : validate_namespace env ns = true
    · simp [netnsMain, hns, hv, hp]
    · simp only [Bool.not_eq_true] at hv
      simp [netnsMain, hns, hv]
  · intro env prog ns cmd rest hns ha
    by_cases hv : validate_namespace env ns = true
    · cases hp : get_command_path cmd with
      | none => simp [netnsMain, hns, hv, hp]
      | some p => simp [netnsMain, hns, hv, hp, ha]
    · simp only [Bool.not_eq_true] at hv
      simp [netnsMain, hns, hv]

/-- Witness for C3 at concrete invocations: a rejected `bash` command, a
path-traversal namespace, a disallowed `ip` argument, and one successful
exec whose path is in the whitelist. -/
theorem C3_netns_reader_safety_witness :
    netnsMain ⟨true, fun _ => true, true, true, true⟩ ["prog", "ns1", "bash"]
      = NetnsOutcome.exited 1
    ∧ netnsMain ⟨true, fun _ => true, true, true, true⟩ ["prog", "..", "ip"]
      = NetnsOutcome.exited 1
    ∧ netnsMain ⟨true, fun _ => true, true, true, true⟩ ["prog", "ns1", "ip", "flush"]
      = NetnsOutcome.exited 1
    ∧ ("/usr/sbin/ip" ∈ allowed_commands.map Prod.snd ∧ (true : Bool) = true) :=
  ⟨C3_netns_reader_safety.2.2.2.2.1 ⟨true, fun _ => true, true, true, true⟩ "prog" "ns1" "bash" []
     (by decide) (by decide),
   C3_netns_reader_safety.2.2.2.1 ⟨true, fun _ => true, true, true, true⟩ "prog" ".." "ip" []
     (by decide) (by decide),
   C3_netns_reader_safety.2.2.2.2.2 ⟨true, fun _ => true, true, true, true⟩ "prog" "ns1" "ip"
     ["flush"] (by decide) (by decide),
   C3_netns_reader_safety.1 ⟨true, fun _ => true, true, true, true⟩
     ["prog", "ns1", "ip", "addr", "show"] "/usr/sbin/ip" ["ip", "addr", "show"] true (by decide)⟩

/-!
Claim C7 — batch command formatting and capacity failure.  The claim
fails for commands whose formatted line exceeds the 8 KiB `full_cmd`
buffer: `snprintf` silently truncates the line (dropping even the
newline), so the appended text is not the claimed verbatim line.
-/

theorem formatBatchCmd_eq_take (ns : Option Str) (command : Str) :
    formatBatchCmd ns command = (claimedBatchLine ns command).take 8191 := by
  cases ns <;> rfl

/-- C7 counterexample: adding a 9000-character command appends a line
truncated to 8191 characters (without its newline), not the verbatim
`ip netns exec <ns> <command>` line the claim requires. -/
theorem C7_counterexample :
    (batch_add_command (create_batch_context 1048576) (some (str "x"))
        (List.replicate 9000 'a')).2.buffer ≠
      (create_batch_context 1048576).buffer ++
        claimedBatchLine (some (str "x")) (List.replicate 9000 'a') := by
  intro h
  have hclaim : (claimedBatchLine (some (str "x")) (List.replicate 9000 'a')).length = 9017 := by
    simp only [claimedBatchLine, List.length_append, List.length_replicate]
    decide
  have hfmt : (formatBatchCmd (some (str "x")) (List.replicate 9000 'a')).length = 8191 := by
    rw [formatBatchCmd_eq_take, List.length_take, hclaim]
    decide
  have hbuf : (create_batch_context 1048576).buffer.length = 19 := by decide
  have hstep : (batch_add_command (create_batch_context 1048576) (some (str "x"))
      (List.replicate 9000 'a')).2.buffer
      = (create_batch_context 1048576).buffer
        ++ formatBatchCmd (some (str "x")) (List.replicate 9000 'a') := by
    unfold batch_add_command
    rw [if_neg]
    rw [hbuf, hfmt]
    decide
  rw [hstep] at h
  have hlen := congrArg List.length h
  rw [List.length_append, List.length_append, hclaim, hfmt] at hlen
  omega

/-- C7 amended: when the formatted line fits the 8 KiB command buffer
(at most 8191 bytes), a successful add appends exactly the claimed
`[ip netns exec <ns> ]<command>\n` line; an add whose line (plus the NUL
terminator) would not fit in the remaining buffer capacity fails with
`-1` and leaves the buffer and its recorded size unchanged, so all
previously added commands remain in the script as added. -/
theorem C7_amended :
    (∀ st ns command,
       st.buffer.length + (formatBatchCmd ns command).length + 1 > st.capacity →
       batch_add_command st ns command = (-1, st))
  ∧ (∀ st ns command, (claimedBatchLine ns command).length ≤ 8191 →
       st.buffer.length + (claimedBatchLine ns command).length + 1 ≤ st.capacity →
       batch_add_command st ns command =
         (0, { st with buffer := st.buffer ++ claimedBatchLine ns command })) := by
  constructor
  · intro st ns command hover
    unfold batch_add_command
    rw [if_pos hover]
  · intro st ns command hfit hcap
    have hline : formatBatchCmd ns command = claimedBatchLine ns command := by
      rw [formatBatchCmd_eq_take]
      exact List.take_all_of_le hfit
    unfold batch_add_command
    rw [hline, if_neg (by omega)]

/-- Witness for C7 amended: a short command appended to a fresh batch. -/
theorem C7_amended_witness :
    batch_add_command (create_batch_context 1048576) (some (str "r1")) (str "ip link set lo up")
      = (0, { buffer := batchHeader ++ claimedBatchLine (some (str "r1")) (str "ip link set lo up")
              capacity := 1048576 }) :=
  C7_amended.2 (create_batch_context 1048576) (some (str "r1")) (str "ip link set lo up")
    (by decide) (by decide)

/-!
Claim C2 — idempotent veth creation.  The claim fails: the per-interface
loop only proceeds when the veth-creation command exits 0; a pre-existing
pair makes `ip link add` fail, and the whole interface (moves, bridge
attachment, and every queued configuration command) is skipped.
-/

/-- C2 counterexample: with the veth-creation command reporting failure
(as it does when the pair already exists), the loop body performs only
the creation attempt — no move, no bridge attachment, and no queued
rename/MAC/address/up/MTU command. -/
theorem C2_counterexample :
    setupIfaceActs (fun _ => some (str "b01000100100024")) (str "rtr") (str "r000") (str "i000")
      { name := str "eth0", mac := some (str "aa:bb:cc:dd:ee:01"), mtu := 1500, up := true,
        addresses := [{ ip := str "10.1.1.2/24", broadcast := some (str "10.1.1.255"),
                        scope := some (str "global") }] } false
      = [Act.host (vethCreateCmd (str "r000i000r") (str "r000i000h"))]
    ∧ Act.batch (fmt511 (str "ip link set r000i000r name eth0")) ∉
        setupIfaceActs (fun _ => some (str "b01000100100024")) (str "rtr") (str "r000")
          (str "i000")
          { name := str "eth0", mac := some (str "aa:bb:cc:dd:ee:01"), mtu := 1500, up := true,
            addresses := [{ ip := str "10.1.1.2/24", broadcast := some (str "10.1.1.255"),
                            scope := some (str "global") }] } false := by
  constructor
  · rfl
  · decide

/-- C2 amended: the follow-up steps run exactly when the veth-creation
command exits 0.  On failure the loop body consists of the creation
attempt alone; the rename is queued and the router end moved if and only
if creation succeeded. -/
theorem C2_amended :
    ∀ rf ns rc ic iface createOk,
      (createOk = false →
        setupIfaceActs rf ns rc ic iface createOk =
          [Act.host (vethCreateCmd ((rc ++ ic ++ [ 'r' ]).take 15) ((rc ++ ic ++ [ 'h' ]).take 15))])
      ∧ (Act.batch (fmt511 (str "ip link set " ++ (rc ++ ic ++ [ 'r' ]).take 15
            ++ str " name " ++ iface.name)) ∈ setupIfaceActs rf ns rc ic iface createOk
          ↔ createOk = true)
      ∧ (Act.host (fmt511 (str "ip link set " ++ (rc ++ ic ++ [ 'r' ]).take 15
            ++ str " netns " ++ ns)) ∈ setupIfaceActs rf ns rc ic iface createOk
          ↔ createOk = true) := by
  intro rf ns rc ic iface createOk
  cases createOk with
  | false =>
    refine ⟨fun _ => rfl, ?_, ?_⟩
    · simp [setupIfaceActs, vethCreateCmd, fmt511]
    · constructor
      · intro hmem
        simp only [setupIfaceActs, Bool.false_eq_true, if_false, List.mem_singleton] at hmem
        injection hmem with hstr
        have h12s : (str "ip link set ").length = 12 := rfl
        have h12a : (str "ip link add ").length = 12 := rfl
        have e1 : (fmt511 (str "ip link set " ++ (rc ++ ic ++ [ 'r' ]).take 15
            ++ str " netns " ++ ns)).get? 8 = some 's' := by
          simp only [fmt511]
          rw [List.get?_take (by omega : (8 : Nat) < 511)]
          rw [List.get?_append (by simp only [List.length_append]; omega)]
          rw [List.get?_append (by simp only [List.length_append]; omega)]
          rw [List.get?_append (by omega)]
          rfl
        have e2 : (vethCreateCmd ((rc ++ ic ++ [ 'r' ]).take 15)
            ((rc ++ ic ++ [ 'h' ]).take 15)).get? 8 = some 'a' := by
          simp only [vethCreateCmd, fmt511]
          rw [List.get?_take (by omega : (8 : Nat) < 511)]
          rw [List.get?_append (by simp only [List.length_append]; omega)]
          rw [List.get?_append (by simp only [List.length_append]; omega)]
          rw [List.get?_append (by simp only [List.length_append]; omega)]
          rw [List.get?_append (by omega)]
          rfl
        rw [hstr, e2] at e1
        exact absurd e1 (by decide)
      · intro hfalse
        exact absurd hfalse (by decide)
  | true =>
    refine ⟨fun hf => absurd hf (by decide), ?_, ?_⟩
    · simp [setupIfaceActs]
    · simp [setupIfaceActs]

/-- Witness for C2 amended: the failed-creation case at a concrete
interface. -/
theorem C2_amended_witness :
    setupIfaceActs (fun _ => none) (str "rtr") (str "r000") (str "i000")
      { name := str "eth0", mac := none, mtu := 1500, up := false, addresses := [] } false
      = [Act.host (vethCreateCmd ((str "r000" ++ str "i000" ++ [ 'r' ]).take 15)
          ((str "r000" ++ str "i000" ++ [ 'h' ]).take 15))] :=
  (C2_amended (fun _ => none) (str "rtr") (str "r000") (str "i000")
    { name := str "eth0", mac := none, mtu := 1500, up := false, addresses := [] } false).1 rfl

/-!
Claim C8 — registry code uniqueness.  The claim's router-code part holds,
but its interface part fails as stated: interface codes restart at `i000`
for every router, so two distinct (router, interface-name) pairs on
different routers receive the same interface code.
-/

set_option maxRecDepth 100000 in
/-- C8 counterexample: from a cleared registry, routers `A` and `B` get
codes `r000` and `r001`, and the distinct pairs (`r000`, `eth0`) and
(`r001`, `eth0`) are both assigned the same interface code `i000`. -/
theorem C8_counterexample :
    (regRun clearRegistry
      [RegOp.getRouter (str "A"), RegOp.getRouter (str "B"),
       RegOp.getIface (str "r000") (str "eth0"),
       RegOp.getIface (str "r001") (str "eth0")]).1
    = [some (str "r000"), some (str "r001"), some (str "i000"), some (str "i000")]
    ∧ (str "r000", str "eth0") ≠ (str "r001", str "eth0") := by
  exact ⟨rfl, by decide⟩

/-!
Claim C1 — raw route-command extraction by `load_router_facts`.  The
enumeration loop scans for the literal
`=== TSIM_SECTION_START:routing_table_` (with a trailing underscore), so
the main `routing_table` section never matches and contributes no
command, contradicting both the claim and the loop's own comment that it
extracts all routing tables.
-/

set_option maxRecDepth 400000 in
/-- C1 failing input: a facts file whose only routing section is the main
`routing_table`.  The section is present with two route lines, yet
loading appends no raw route command at all; a `routing_table_200`
section in the same file does produce its command (with the table
parameter placed before the route). -/
theorem C1_main_table_dropped :
    loadRawRouteCommands c1FactsMain = []
    ∧ find_section c1FactsMain (str "routing_table")
        = some (str "default via 10.1.1.1 dev eth0\n10.1.1.0/24 dev eth0 proto kernel")
    ∧ loadRawRouteCommands (c1FactsMain ++ c1FactsT200)
        = [str "ip route add table 200 10.9.0.0/16 via 10.1.1.1 dev eth0"] := by
  exact ⟨rfl, rfl, rfl⟩

/-!
Claim C5 — `find_section` extraction.
-/

theorem isPrefixOf_append_self (a b : Str) : a.isPrefixOf (a ++ b) = true :=
  List.isPrefixOf_iff_prefix.mpr (List.prefix_append a b)

theorem prefix_get?_zero (a b : Str) (x : Char) (h : a.isPrefixOf b = true)
    (ha : a.get? 0 = some x) : b.get? 0 = some x := by
  rw [List.isPrefixOf_iff_prefix] at h
  obtain ⟨t, ht⟩ := h
  subst ht
  have hlt : 0 < a.length := by
    cases a with
    | nil => simp at ha
    | cons c cs => simp
  rw [List.get?_append hlt]
  exact ha

theorem find_section_exit_canonical (pre name body tail : Str)
    (h1 : ∀ k, k < pre.length →
      (sectionStartMarker name).isPrefixOf ((pre ++ restCanonical name body tail).drop k) = false)
    (h2 : ∀ k, k < (sectionStartMarker name).length + 1 →
      (str "---").isPrefixOf ((restCanonical name body tail).drop k) = false)
    (h3 : ∀ k, k < body.length →
      exitCodeSentinel.isPrefixOf ((body ++ (exitCodeSentinel ++ tail)).drop k) = false)
    (h4 : ∀ k, k < body.length →
      (sectionEndMarker name).isPrefixOf ((body ++ (exitCodeSentinel ++ tail)).drop k) = false) :
    find_section (pre ++ restCanonical name body tail) name = some (rtrimC body) := by
  have hsm : (sectionStartMarker name).isPrefixOf (restCanonical name body tail) = true := by
    rw [restCanonical]
    exact isPrefixOf_append_self _ _
  have step1 : strstr (pre ++ restCanonical name body tail) (sectionStartMarker name)
      = some pre.length :=
    strstr_append_at _ _ _ hsm h1
  have hdrop1 : (pre ++ restCanonical name body tail).drop pre.length
      = restCanonical name body tail :=
    List.drop_left _ _
  have hre : restCanonical name body tail
      = (sectionStartMarker name ++ [ '\n' ])
        ++ (str "---" ++ ('\n' :: (body ++ (exitCodeSentinel ++ tail)))) := by
    rw [restCanonical, show str "\n---\n" = '\n' :: (str "---" ++ [ '\n' ]) from rfl]
    simp [List.append_assoc]
  have step2 : strstr (restCanonical name body tail) (str "---")
      = some ((sectionStartMarker name).length + 1) := by
    have hb : (str "---").isPrefixOf
        (str "---" ++ ('\n' :: (body ++ (exitCodeSentinel ++ tail)))) = true :=
      isPrefixOf_append_self _ _
    have hlen : (sectionStartMarker name ++ [ '\n' ]).length
        = (sectionStartMarker name).length + 1 := by
      simp
    have := strstr_append_at (sectionStartMarker name ++ [ '\n' ])
      (str "---" ++ ('\n' :: (body ++ (exitCodeSentinel ++ tail)))) (str "---") hb
      (by
        intro k hk
        rw [← hre]
        exact h2 k (by omega))
    rw [← hre, hlen] at this
    exact this
  have step3 : (restCanonical name body tail).drop ((sectionStartMarker name).length + 1 + 4)
      = body ++ (exitCodeSentinel ++ tail) := by
    have hgr : restCanonical name body tail
        = (sectionStartMarker name ++ str "\n---\n") ++ (body ++ (exitCodeSentinel ++ tail)) := by
      rw [restCanonical]
      simp [List.append_assoc]
    rw [hgr]
    have h5 : (str "\n---\n").length = 5 := rfl
    have hlen : (sectionStartMarker name).length + 1 + 4
        = (sectionStartMarker name ++ str "\n---\n").length := by
      simp only [List.length_append]
      omega
    rw [hlen, List.drop_left]
  have step4 : strstr (body ++ (exitCodeSentinel ++ tail)) exitCodeSentinel = some body.length :=
    strstr_append_at body (exitCodeSentinel ++ tail) _ (isPrefixOf_append_self _ _) h3
  cases he : strstr (body ++ (exitCodeSentinel ++ tail)) (sectionEndMarker name) with
  | none =>
    simp only [find_section, step1, hdrop1, step2, step3, step4, he]
    rw [List.take_left]
  | some y =>
    have hy1 := strstr_isPrefix _ _ _ he
    have hy2 : body.length ≤ y := by
      by_contra hlt
      push_neg at hlt
      have hf := h4 y hlt
      rw [hf] at hy1
      exact absurd hy1 (by decide)
    have hyne : y ≠ body.length := by
      intro happ
      rw [happ, List.drop_left] at hy1
      have h0 := prefix_get?_zero _ _ '=' hy1 rfl
      have h0' : ((exitCodeSentinel ++ tail) : Str).get? 0 = some '\n' := rfl
      rw [h0'] at h0
      exact absurd h0 (by decide)
    have hxy : body.length < y := by omega
    simp only [find_section, step1, hdrop1, step2, step3, step4, he]
    rw [if_pos hxy, List.take_left]

theorem find_section_end_canonical (pre name body tail : Str)
    (h1 : ∀ k, k < pre.length →
      (sectionStartMarker name).isPrefixOf
        ((pre ++ restCanonicalEnd name body tail).drop k) = false)
    (h2 : ∀ k, k < (sectionStartMarker name).length + 1 →
      (str "---").isPrefixOf ((restCanonicalEnd name body tail).drop k) = false)
    (h3 : ∀ k, k < body.length →
      (sectionEndMarker name).isPrefixOf
        ((body ++ (sectionEndMarker name ++ tail)).drop k) = false)
    (h4 : ∀ k, k < body.length + (sectionEndMarker name).length →
      exitCodeSentinel.isPrefixOf
        ((body ++ (sectionEndMarker name ++ tail)).drop k) = false) :
    find_section (pre ++ restCanonicalEnd name body tail) name = some (rtrimC body) := by
  have hsm : (sectionStartMarker name).isPrefixOf (restCanonicalEnd name body tail) = true := by
    rw [restCanonicalEnd]
    exact isPrefixOf_append_self _ _
  have step1 : strstr (pre ++ restCanonicalEnd name body tail) (sectionStartMarker name)
      = some pre.length :=
    strstr_append_at _ _ _ hsm h1
  have hdrop1 : (pre ++ restCanonicalEnd name body tail).drop pre.length
      = restCanonicalEnd name body tail :=
    List.drop_left _ _
  have hre : restCanonicalEnd name body tail
      = (sectionStartMarker name ++ [ '\n' ])
        ++ (str "---" ++ ('\n' :: (body ++ (sectionEndMarker name ++ tail)))) := by
    rw [restCanonicalEnd, show str "\n---\n" = '\n' :: (str "---" ++ [ '\n' ]) from rfl]
    simp [List.append_assoc]
  have step2 : strstr (restCanonicalEnd name body tail) (str "---")
      = some ((sectionStartMarker name).length + 1) := by
    have hb : (str "---").isPrefixOf
        (str "---" ++ ('\n' :: (body ++ (sectionEndMarker name ++ tail)))) = true :=
      isPrefixOf_append_self _ _
    have hlen : (sectionStartMarker name ++ [ '\n' ]).length
        = (sectionStartMarker name).length + 1 := by
      simp
    have := strstr_append_at (sectionStartMarker name ++ [ '\n' ])
      (str "---" ++ ('\n' :: (body ++ (sectionEndMarker name ++ tail)))) (str "---") hb
      (by
        intro k hk
        rw [← hre]
        exact h2 k (by omega))
    rw [← hre, hlen] at this
    exact this
  have step3 : (restCanonicalEnd name body tail).drop ((sectionStartMarker name).length + 1 + 4)
      = body ++ (sectionEndMarker name ++ tail) := by
    have hgr : restCanonicalEnd name body tail
        = (sectionStartMarker name ++ str "\n---\n")
          ++ (body ++ (sectionEndMarker name ++ tail)) := by
      rw [restCanonicalEnd]
      simp [List.append_assoc]
    rw [hgr]
    have h5 : (str "\n---\n").length = 5 := rfl
    have hlen : (sectionStartMarker name).length + 1 + 4
        = (sectionStartMarker name ++ str "\n---\n").length := by
      simp only [List.length_append]
      omega
    rw [hlen, List.drop_left]
  have step4 : strstr (body ++ (sectionEndMarker name ++ tail)) (sectionEndMarker name)
      = some body.length :=
    strstr_append_at body (sectionEndMarker name ++ tail) _ (isPrefixOf_append_self _ _) h3
  have hemlen : 0 < (sectionEndMarker name).length := by
    have h0 : (sectionEndMarker name).get? 0 = some '=' := rfl
    obtain ⟨hlt, _⟩ := List.get?_eq_some.mp h0
    exact hlt
  cases hx : strstr (body ++ (sectionEndMarker name ++ tail)) exitCodeSentinel with
  | none =>
    simp only [find_section, step1, hdrop1, step2, step3, step4, hx]
    rw [List.take_left]
  | some x =>
    have hx1 := strstr_isPrefix _ _ _ hx
    have hx2 : body.length + (sectionEndMarker name).length ≤ x := by
      by_contra hlt
      push_neg at hlt
      have hf := h4 x hlt
      rw [hf] at hx1
      exact absurd hx1 (by decide)
    have hxy : ¬ x < body.length := by omega
    simp only [find_section, step1, hdrop1, step2, step3, step4, hx]
    rw [if_neg hxy, List.take_left]

theorem sectionStartMarkerFull_length (name : Str) :
    (sectionStartMarkerFull name).length = 27 + name.length := by
  have h1 : (str "=== TSIM_SECTION_START:").length = 23 := rfl
  have h2 : (str " ===").length = 4 := rfl
  rw [sectionStartMarkerFull]
  simp only [List.length_append, h1, h2]
  omega

theorem sectionEndMarkerFull_length (name : Str) :
    (sectionEndMarkerFull name).length = 25 + name.length := by
  have h1 : (str "=== TSIM_SECTION_END:").length = 21 := rfl
  have h2 : (str " ===").length = 4 := rfl
  rw [sectionEndMarkerFull]
  simp only [List.length_append, h1, h2]
  omega

theorem marker_untruncated (name : Str) (h : name.length ≤ 228) :
    sectionStartMarker name = sectionStartMarkerFull name
    ∧ sectionEndMarker name = sectionEndMarkerFull name := by
  constructor
  · rw [sectionStartMarker]
    apply List.take_all_of_le
    rw [sectionStartMarkerFull_length]
    omega
  · rw [sectionEndMarker]
    apply List.take_all_of_le
    rw [sectionEndMarkerFull_length]
    omega

set_option maxRecDepth 100000 in
/-- C5 counterexample: `find_section` builds its markers with `snprintf`
into 256-byte buffers, so for a 229-character section name the searched
start marker loses its final `=`.  On content whose genuine canonical
section (body `xyz`) is preceded by a decoy spelling the truncated
marker and a dashes line, the C function anchors on the decoy and
returns a body that swallows the decoy text and the real marker, where
the extraction the claim describes (verbatim markers, modelled by
`find_section_claimed`) returns `xyz`. -/
theorem C5_counterexample :
    find_section c5Content c5LongName
      = some (str "D" ++ (sectionStartMarkerFull c5LongName ++ str "\n---\nxyz"))
    ∧ find_section_claimed c5Content c5LongName = some (str "xyz")
    ∧ find_section c5Content c5LongName ≠ find_section_claimed c5Content c5LongName := by
  have e1 : find_section c5Content c5LongName
      = some (str "D" ++ (sectionStartMarkerFull c5LongName ++ str "\n---\nxyz")) := by
    decide
  have e2 : find_section_claimed c5Content c5LongName = some (str "xyz") := by
    decide
  refine ⟨e1, e2, ?_⟩
  intro h
  rw [e1, e2] at h
  injection h with h1
  have := congrArg List.length h1
  simp only [List.length_append, sectionStartMarkerFull_length, c5LongName,
    List.length_replicate] at this
  revert this
  decide

/-- C5 amended: section extraction as claimed, for section names of at
most 228 characters — the regime where the `snprintf`-assembled markers
are the format's verbatim markers (first conjunct).  When the start
marker is absent no body is produced (not an error — the C returns
NULL).  For content laid out canonically — the start marker, a newline,
the three-dash line, the body, then either the `\nEXIT_CODE:` sentinel
or the end marker (whichever terminator comes first) — the extracted
body is exactly the text between the dashes line and that terminator
with trailing whitespace trimmed, and an empty body yields a present,
zero-length body.  The first-occurrence side conditions say the markers
do not also occur earlier in the surrounding text.  For longer names the
truncated marker can anchor on a decoy and the claimed description
fails (see the counterexample). -/
theorem C5_amended :
    (∀ name : Str, name.length ≤ 228 →
       sectionStartMarker name = sectionStartMarkerFull name
       ∧ sectionEndMarker name = sectionEndMarkerFull name)
  ∧ (∀ content name,
       (∀ k, (sectionStartMarker name).isPrefixOf (content.drop k) = false) →
       find_section content name = none)
  ∧ (∀ pre name body tail, name.length ≤ 228 →
       (∀ k, k < pre.length →
         (sectionStartMarker name).isPrefixOf
           ((pre ++ restCanonical name body tail).drop k) = false) →
       (∀ k, k < (sectionStartMarker name).length + 1 →
         (str "---").isPrefixOf ((restCanonical name body tail).drop k) = false) →
       (∀ k, k < body.length →
         exitCodeSentinel.isPrefixOf ((body ++ (exitCodeSentinel ++ tail)).drop k) = false) →
       (∀ k, k < body.length →
         (sectionEndMarker name).isPrefixOf
           ((body ++ (exitCodeSentinel ++ tail)).drop k) = false) →
       find_section (pre ++ restCanonical name body tail) name = some (rtrimC body))
  ∧ (∀ pre name body tail, name.length ≤ 228 →
       (∀ k, k < pre.length →
         (sectionStartMarker name).isPrefixOf
           ((pre ++ restCanonicalEnd name body tail).drop k) = false) →
       (∀ k, k < (sectionStartMarker name).length + 1 →
         (str "---").isPrefixOf ((restCanonicalEnd name body tail).drop k) = false) →
       (∀ k, k < body.length →
         (sectionEndMarker name).isPrefixOf
           ((body ++ (sectionEndMarker name ++ tail)).drop k) = false) →
       (∀ k, k < body.length + (sectionEndMarker name).length →
         exitCodeSentinel.isPrefixOf
           ((body ++ (sectionEndMarker name ++ tail)).drop k) = false) →
       find_section (pre ++ restCanonicalEnd name body tail) name = some (rtrimC body))
  ∧ (∀ pre name tail, name.length ≤ 228 →
       (∀ k, k < pre.length →
         (sectionStartMarker name).isPrefixOf
           ((pre ++ restCanonical name [] tail).drop k) = false) →
       (∀ k, k < (sectionStartMarker name).length + 1 →
         (str "---").isPrefixOf ((restCanonical name [] tail).drop k) = false) →
       find_section (pre ++ restCanonical name [] tail) name = some []) := by
  refine ⟨marker_untruncated, ?_, ?_, ?_, ?_⟩
  · intro content name h
    rw [find_section, strstr_eq_none_of content (sectionStartMarker name) h]
  · intro pre name body tail _ h1 h2 h3 h4
    exact find_section_exit_canonical pre name body tail h1 h2 h3 h4
  · intro pre name body tail _ h1 h2 h3 h4
    exact find_section_end_canonical pre name body tail h1 h2 h3 h4
  · intro pre name tail _ h1 h2
    exact find_section_exit_canonical pre name [] tail h1 h2
      (fun k hk => by simp at hk) (fun k hk => by simp at hk)

/-- Witness for C5 amended at a concrete one-line `interfaces` section,
at a trailing-whitespace body terminated by the end marker, and at an
empty section; the first conjunct instantiates the marker identity at
`interfaces`. -/
theorem C5_amended_witness :
    (sectionStartMarker (str "interfaces") = sectionStartMarkerFull (str "interfaces")
      ∧ sectionEndMarker (str "interfaces") = sectionEndMarkerFull (str "interfaces"))
    ∧ find_section (str "" ++ restCanonical (str "interfaces") (str "2: eth0: <UP> mtu 1500")
        (str "0\n=== TSIM_SECTION_END:interfaces ===\n")) (str "interfaces")
      = some (rtrimC (str "2: eth0: <UP> mtu 1500"))
    ∧ find_section (str "x\n" ++ restCanonicalEnd (str "pr") (str "line one \n")
        (str "\n")) (str "pr")
      = some (rtrimC (str "line one \n"))
    ∧ find_section (str "" ++ restCanonical (str "ipset_save")
        [] (str "0\n=== TSIM_SECTION_END:ipset_save ===\n")) (str "ipset_save")
      = some [] :=
  ⟨C5_amended.1 (str "interfaces") (by decide),
   C5_amended.2.2.1 (str "") (str "interfaces") (str "2: eth0: <UP> mtu 1500")
      (str "0\n=== TSIM_SECTION_END:interfaces ===\n")
      (by decide) (by decide) (by decide) (by decide) (by decide),
   C5_amended.2.2.2.1 (str "x\n") (str "pr") (str "line one \n") (str "\n")
      (by decide) (by decide) (by decide) (by decide) (by decide),
   C5_amended.2.2.2.2 (str "") (str "ipset_save")
      (str "0\n=== TSIM_SECTION_END:ipset_save ===\n") (by decide) (by decide) (by decide)⟩

/-!
Claim C9 — deterministic bridge naming.
-/

theorem isDigitC_not_space (c : Char) (h : isDigitC c = true) : isSpaceC c = false := by
  simp only [isDigitC, Bool.and_eq_true, decide_eq_true_eq] at h
  obtain ⟨h1, h2⟩ := h
  have n1 : c ≠ ' ' := by intro he; subst he; exact absurd h1 (by decide)
  have n2 : c ≠ '\t' := by intro he; subst he; exact absurd h1 (by decide)
  have n3 : c ≠ '\n' := by intro he; subst he; exact absurd h1 (by decide)
  have n4 : c ≠ '\x0b' := by intro he; subst he; exact absurd h1 (by decide)
  have n5 : c ≠ '\x0c' := by intro he; subst he; exact absurd h1 (by decide)
  have n6 : c ≠ '\r' := by intro he; subst he; exact absurd h1 (by decide)
  simp [isSpaceC, n1, n2, n3, n4, n5, n6]

theorem takeWhile_all {p : Char → Bool} : ∀ (l : Str), (∀ c ∈ l, p c = true) →
    l.takeWhile p = l := by
  intro l
  induction l with
  | nil => intro _; rfl
  | cons x xs ih =>
    intro h
    rw [List.takeWhile_cons, h x (by simp)]
    simp [ih (fun c hc => h c (by simp [hc]))]

theorem dropWhile_space_natDec (n : Nat) (rest : Str) :
    (natDec n ++ rest).dropWhile isSpaceC = natDec n ++ rest := by
  cases hd : natDec n with
  | nil => exact absurd hd (natDec_ne_nil n)
  | cons c cs =>
    have hdig : isDigitC c = true := natDec_all_digits n c (by rw [hd]; simp)
    rw [List.cons_append, List.dropWhile_cons, isDigitC_not_space c hdig]
    simp

theorem parseUInt_natDec (n : Nat) (c : Char) (rest : Str) (hc : isDigitC c = false) :
    parseUInt (natDec n ++ (c :: rest)) = some (n, c :: rest) := by
  simp only [parseUInt, dropWhile_space_natDec]
  rw [takeWhile_append_of_all (natDec n) c rest (natDec_all_digits n) hc]
  rw [if_neg (natDec_ne_nil n), digitsVal_natDec, List.drop_left]

theorem parseUInt_natDec_nil (n : Nat) : parseUInt (natDec n) = some (n, []) := by
  have hd : natDec n ++ ([] : Str) = natDec n := List.append_nil _
  simp only [parseUInt]
  rw [← hd, dropWhile_space_natDec, hd]
  rw [takeWhile_all (natDec n) (natDec_all_digits n)]
  rw [if_neg (natDec_ne_nil n), digitsVal_natDec, List.drop_length]

theorem expectChar_cons_self (c : Char) (rest : Str) : expectChar c (c :: rest) = some rest := by
  simp [expectChar]

theorem sscanfSubnet_canonical (a b c d p : Nat) :
    sscanfSubnet (canonicalSubnet a b c d p) = some (a, b, c, d, p) := by
  have hdot : isDigitC '.' = false := by decide
  have hslash : isDigitC '/' = false := by decide
  have e1 : parseUInt (canonicalSubnet a b c d p)
      = some (a, '.' :: (natDec b ++ ('.' :: (natDec c ++ ('.' :: (natDec d ++ ('/' :: natDec p))))))) := by
    rw [canonicalSubnet]
    exact parseUInt_natDec a '.' _ hdot
  have e2 : parseUInt (natDec b ++ ('.' :: (natDec c ++ ('.' :: (natDec d ++ ('/' :: natDec p))))))
      = some (b, '.' :: (natDec c ++ ('.' :: (natDec d ++ ('/' :: natDec p))))) :=
    parseUInt_natDec b '.' _ hdot
  have e3 : parseUInt (natDec c ++ ('.' :: (natDec d ++ ('/' :: natDec p))))
      = some (c, '.' :: (natDec d ++ ('/' :: natDec p))) :=
    parseUInt_natDec c '.' _ hdot
  have e4 : parseUInt (natDec d ++ ('/' :: natDec p)) = some (d, '/' :: natDec p) :=
    parseUInt_natDec d '/' _ hslash
  have e5 : parseUInt (natDec p) = some (p, []) := parseUInt_natDec_nil p
  simp only [sscanfSubnet, e1, e2, e3, e4, e5, expectChar_cons_self]

/-- C9: for a canonical subnet string `A.B.C.D/P` with octets at most 255
and prefix at most 32, the generated bridge name is exactly `b` followed
by the three-digit zero-padded octets and the two-digit zero-padded
prefix, 15 characters in all, independent of the clock value used only by
the fallback branch (so any process recomputes the same name). -/
theorem C9_bridge_name (a b c d p now now' : Nat)
    (ha : a ≤ 255) (hb : b ≤ 255) (hc : c ≤ 255) (hd : d ≤ 255) (hp : p ≤ 32) :
    generate_bridge_name now (canonicalSubnet a b c d p)
      = 'b' :: (padDec 3 a ++ padDec 3 b ++ padDec 3 c ++ padDec 3 d ++ padDec 2 p)
    ∧ (generate_bridge_name now (canonicalSubnet a b c d p)).length = 15
    ∧ generate_bridge_name now (canonicalSubnet a b c d p)
      = generate_bridge_name now' (canonicalSubnet a b c d p) := by
  have l3 : ∀ m : Nat, m ≤ 255 → (padDec 3 m).length = 3 := by
    intro m hm
    exact padDec_length 3 m (natDec_length_le 3 m (by omega) (by omega))
  have l2 : (padDec 2 p).length = 2 :=
    padDec_length 2 p (natDec_length_le 2 p (by omega) (by omega))
  have hsum : ('b' :: (padDec 3 a ++ padDec 3 b ++ padDec 3 c ++ padDec 3 d ++ padDec 2 p)).length
      = 15 := by
    simp only [List.length_cons, List.length_append, l3 a ha, l3 b hb, l3 c hc, l3 d hd, l2]
  have hgen : generate_bridge_name now (canonicalSubnet a b c d p)
      = 'b' :: (padDec 3 a ++ padDec 3 b ++ padDec 3 c ++ padDec 3 d ++ padDec 2 p) := by
    simp only [generate_bridge_name, sscanfSubnet_canonical]
    exact List.take_all_of_le (le_of_eq hsum)
  have hgen' : generate_bridge_name now' (canonicalSubnet a b c d p)
      = 'b' :: (padDec 3 a ++ padDec 3 b ++ padDec 3 c ++ padDec 3 d ++ padDec 2 p) := by
    simp only [generate_bridge_name, sscanfSubnet_canonical]
    exact List.take_all_of_le (le_of_eq hsum)
  exact ⟨hgen, by rw [hgen, hsum], by rw [hgen, hgen']⟩

/-- Witness for C9 at the subnet 10.1.1.0/24. -/
theorem C9_bridge_name_witness :
    generate_bridge_name 7 (canonicalSubnet 10 1 1 0 24)
      = 'b' :: (padDec 3 10 ++ padDec 3 1 ++ padDec 3 1 ++ padDec 3 0 ++ padDec 2 24)
    ∧ generate_bridge_name 7 (canonicalSubnet 10 1 1 0 24) = str "b01000100100024" :=
  ⟨(C9_bridge_name 10 1 1 0 24 7 7 (by decide) (by decide) (by decide) (by decide)
      (by decide)).1,
   by decide⟩

/-!
Claim C6 — IPv6 address filtering.  The claim fails: the C code drops an
address when `strstr(ip_addr, "fe80:")` finds the substring anywhere, not
only at the start, so a global address containing `fe80:` in the middle
is also dropped.
-/

/-- C6 counterexample: the global address `2001:db8:fe80::1/64` does not
start with `fe80:`, yet the parser drops it. -/
theorem C6_counterexample :
    parseInet6Line (str "    inet6 2001:db8:fe80::1/64 scope global") = none
    ∧ (str "fe80:").isPrefixOf (str "2001:db8:fe80::1/64") = false := by
  exact ⟨rfl, by decide⟩

/-- C6 amended: for an `inet6` line carrying a whitespace-free address
token followed by `scope global`, the parser appends the address if and
only if the token does not contain `fe80:` anywhere; a retained address
keeps the full token (with its prefix length text) and scope `global`.
The side condition says `scope ` does not also occur inside the address
token or across its boundary. -/
theorem C6_amended (addr : Str) (hne : addr ≠ []) (hns : ∀ c ∈ addr, isSpaceC c = false)
    (hsc : ∀ k, k < addr.length + 1 →
      (str "scope ").isPrefixOf ((addr ++ (' ' :: str "scope global")).drop k) = false) :
    (parseInet6Line (str "    inet6 " ++ (addr ++ (' ' :: str "scope global"))) = none
      ↔ strstr addr (str "fe80:") ≠ none)
    ∧ (∀ a, parseInet6Line (str "    inet6 " ++ (addr ++ (' ' :: str "scope global"))) = some a →
        a.ip = addr ∧ a.scope = some (str "global") ∧ a.broadcast = none) := by
  set REST := addr ++ (' ' :: str "scope global") with hREST
  have htrim : (str "    inet6 " ++ REST).dropWhile isSpaceC = str "inet6 " ++ REST := by
    show (' ' :: (' ' :: (' ' :: (' ' :: (str "inet6 " ++ REST))))).dropWhile isSpaceC
        = str "inet6 " ++ REST
    have hcons : str "inet6 " ++ REST = 'i' :: (str "net6 " ++ REST) := rfl
    rw [List.dropWhile_cons, if_pos (show isSpaceC ' ' = true from rfl)]
    rw [List.dropWhile_cons, if_pos (show isSpaceC ' ' = true from rfl)]
    rw [List.dropWhile_cons, if_pos (show isSpaceC ' ' = true from rfl)]
    rw [List.dropWhile_cons, if_pos (show isSpaceC ' ' = true from rfl)]
    rw [hcons, List.dropWhile_cons, if_neg (by decide : ¬ isSpaceC 'i' = true)]
  have hstr0 : strstr (str "inet6 " ++ REST) (str "inet6 ") = some 0 :=
    strstr_prefix_zero _ _ (isPrefixOf_append_self _ _)
  have hdrop6 : (str "inet6 " ++ REST).drop (0 + 6) = REST := by
    have h6 : (0 + 6 : Nat) = (str "inet6 ").length := rfl
    rw [h6, List.drop_left]
  obtain ⟨a0, addrTail, haddr⟩ : ∃ a0 addrTail, addr = a0 :: addrTail := by
    cases addr with
    | nil => exact absurd rfl hne
    | cons x xs => exact ⟨x, xs, rfl⟩
  have hscan : scanToken REST = some (addr, REST.drop addr.length) := by
    have hdw : REST.dropWhile isSpaceC = REST := by
      rw [hREST]
      exact dropWhile_append_of_head addr a0 addrTail (hns a0 (by rw [haddr]; simp)) haddr _
    have htw : REST.takeWhile (fun c => !isSpaceC c) = addr := by
      rw [hREST]
      exact takeWhile_append_of_all addr ' ' (str "scope global")
        (fun c hc => by rw [hns c hc]; rfl) (by decide)
    simp only [scanToken, hdw, htw]
    rw [if_neg hne]
  have hgr : REST = (addr ++ [ ' ' ]) ++ str "scope global" := by
    rw [hREST]
    simp [List.append_assoc]
  cases hfe : strstr addr (str "fe80:") with
  | some i =>
    have hall : parseInet6Line (str "    inet6 " ++ REST) = none := by
      simp only [parseInet6Line, htrim, hstr0, hdrop6, hscan, hfe]
      simp
    refine ⟨⟨fun _ => by simp [hfe], fun _ => hall⟩, fun a ha => absurd (hall ▸ ha) (by simp)⟩
  | none =>
    have hsc1 : strstr REST (str "scope ") = some (addr.length + 1) := by
      have hb : (str "scope ").isPrefixOf (str "scope global") = true := by decide
      have hlen : (addr ++ [ ' ' ]).length = addr.length + 1 := by simp
      have := strstr_append_at (addr ++ [ ' ' ]) (str "scope global") (str "scope ") hb
        (by
          intro k hk
          rw [← hgr]
          exact hsc k (by omega))
      rw [← hgr, hlen] at this
      exact this
    have hdropsc : REST.drop (addr.length + 1 + 6) = str "global" := by
      rw [← List.drop_drop, hgr]
      have hlen : addr.length + 1 = (addr ++ [ ' ' ]).length := by simp
      rw [hlen, List.drop_left]
      rfl
    have hres : parseInet6Line (str "    inet6 " ++ REST)
        = some { ip := addr, broadcast := none, scope := some (str "global")
                 prefixlen := (match strchrC addr '/' with
                               | some k => atoiC (addr.drop (k + 1))
                               | none => 0)
                 secondary := false } := by
      simp only [parseInet6Line, htrim, hstr0, hdrop6, hscan, hfe, hsc1, hdropsc]
      simp only [scanToken]
      norm_num
      rfl
    refine ⟨⟨fun hnone => ?_, fun hcontra => absurd rfl hcontra⟩, fun a ha => ?_⟩
    · rw [hres] at hnone
      exact absurd hnone (by simp)
    · rw [hres] at ha
      injection ha with hb
      subst hb
      exact ⟨rfl, rfl, rfl⟩

/-- Witness for C6 amended at a retained global address and at a
contained-`fe80:` address. -/
theorem C6_amended_witness :
    (parseInet6Line (str "    inet6 " ++ (str "2001:db8::1/64" ++ (' ' :: str "scope global")))
      = none ↔ strstr (str "2001:db8::1/64") (str "fe80:") ≠ none) :=
  (C6_amended (str "2001:db8::1/64") (by decide) (by decide) (by decide)).1

/-!
Claim C8 — registry code assignment, amended development.
-/

theorem find?_range'_first (pred : Nat → Bool) : ∀ (len s k : Nat), k < len →
    pred (s + k) = true → (∀ j, j < k → pred (s + j) = false) →
    (List.range' s len).find? pred = some (s + k) := by
  intro len
  induction len with
  | zero => intro s k hk _ _; exact absurd hk (by omega)
  | succ m ih =>
    intro s k hk hp hmin
    rw [List.range'_succ]
    cases k with
    | zero =>
      rw [Nat.add_zero] at hp
      rw [List.find?_cons_of_pos _ hp, Nat.add_zero]
    | succ k' =>
      have h0 : pred s = false := by
        have h := hmin 0 (by omega)
        simpa using h
      rw [List.find?_cons_of_neg _ (by simp [h0])]
      have heq : s + (k' + 1) = (s + 1) + k' := by omega
      rw [heq]
      refine ih (s + 1) k' (by omega) (heq ▸ hp) ?_
      intro j hj
      have h := hmin (j + 1) (by omega)
      have heq2 : s + (j + 1) = (s + 1) + j := by omega
      exact heq2 ▸ h

theorem find?_range_first (pred : Nat → Bool) (n k : Nat) (hk : k < n) (hp : pred k = true)
    (hmin : ∀ j, j < k → pred j = false) : (List.range n).find? pred = some k := by
  rw [List.range_eq_range']
  have h := find?_range'_first pred n 0 k hk (by simpa using hp)
    (by intro j hj; simpa using hmin j hj)
  simpa using h

theorem padCode_take (tag : Char) (i : Nat) (h : i < 10000) :
    (tag :: padDec 3 i).take 7 = tag :: padDec 3 i := by
  apply List.take_all_of_le
  have hlen : (natDec i).length ≤ 4 := natDec_length_le 4 i (by omega) (by omega)
  simp only [List.length_cons, padDec, List.length_append, List.length_replicate]
  omega

theorem padCode_inj (tag : Char) (i j : Nat) (hi : i < 10000) (hj : j < 10000)
    (h : (tag :: padDec 3 i).take 7 = (tag :: padDec 3 j).take 7) : i = j := by
  rw [padCode_take tag i hi, padCode_take tag j hj] at h
  injection h with _ h2
  exact padDec_inj 3 i j h2

theorem ridxOfCode_lt (rc : Str) (b : Nat) (h : ridxOfCode rc = some b) : b < MAX_ROUTERS := by
  match rc with
  | [] => simp [ridxOfCode] at h
  | c :: rest =>
    by_cases hc : c = 'r'
    · subst hc
      simp only [ridxOfCode] at h
      split at h
      · cases h
      · injection h with h1
        rename_i hcond
        push_neg at hcond
        omega
    · rw [ridxOfCode] at h
      · exact Option.noConfusion h
      · intro rest1 heq
        injection heq with he1 _
        exact hc he1

theorem routerAssigned_inj (reg : ShmRegistry) (inv : RegInv reg) (n n' c c' : Str)
    (h1 : routerAssigned reg n c) (h2 : routerAssigned reg n' c') : n = n' ↔ c = c' := by
  obtain ⟨i, hi, he⟩ := h1
  obtain ⟨j, hj, he'⟩ := h2
  by_cases hij : i = j
  · subst hij
    rw [he] at he'
    injection he' with hx
    injection hx with e1 e2
    exact iff_of_true e1 e2
  · have hne : n ≠ n' :=
      inv.rname_inj i j ⟨n, c⟩ ⟨n', c'⟩ he he' hij
    have hc : c = ('r' :: padDec 3 i).take 7 := inv.rcode i ⟨n, c⟩ he
    have hc' : c' = ('r' :: padDec 3 j).take 7 := inv.rcode j ⟨n', c'⟩ he'
    have hcne : c ≠ c' := by
      intro hcc
      apply hij
      apply padCode_inj 'r' i j (by unfold MAX_ROUTERS at hi; omega)
        (by unfold MAX_ROUTERS at hj; omega)
      rw [← hc, ← hc', hcc]
    exact iff_of_false hne hcne

theorem ifaceAssigned_inj (reg : ShmRegistry) (inv : RegInv reg) (rc n c rc' n' c' : Str)
    (h1 : ifaceAssigned reg rc n c) (h2 : ifaceAssigned reg rc' n' c') :
    (rc, n) = (rc', n') ↔ (rc, c) = (rc', c') := by
  obtain ⟨b, i, hb, hi, he⟩ := h1
  obtain ⟨b', j, hb', hj, he'⟩ := h2
  constructor
  · intro hpair
    injection hpair with hrc hn
    subst hrc
    subst hn
    rw [hb] at hb'
    injection hb' with hbb
    subst hbb
    by_cases hij : i = j
    · subst hij
      rw [he] at he'
      injection he' with hx
      injection hx with e1 e2 e3
      rw [e3]
    · exact absurd rfl
        (inv.ikey_inj b i j ⟨rc, n, c⟩ ⟨rc, n, c'⟩ (ridxOfCode_lt rc b hb) hi hj he he' hij)
  · intro hpair
    injection hpair with hrc hcc
    subst hrc
    subst hcc
    rw [hb] at hb'
    injection hb' with hbb
    subst hbb
    have hbl : b < MAX_ROUTERS := ridxOfCode_lt rc b hb
    have hcode : c = ('i' :: padDec 3 i).take 7 := inv.icode b i ⟨rc, n, c⟩ hbl hi he
    have hcode' : c = ('i' :: padDec 3 j).take 7 := inv.icode b j ⟨rc, n', c⟩ hbl hj he'
    have hij : i = j := by
      apply padCode_inj 'i' i j (by unfold MAX_IFACES_PER_ROUTER at hi; omega)
        (by unfold MAX_IFACES_PER_ROUTER at hj; omega)
      rw [← hcode, ← hcode']
    subst hij
    rw [he] at he'
    injection he' with hx
    injection hx with e1 e2 e3
    rw [e2]

set_option maxRecDepth 8000 in
theorem get_router_code_step (reg : ShmRegistry) (name : Str) (inv : RegInv reg)
    (hwf : name.length ≤ 255) :
    RegInv (get_router_code_shm reg name).2
    ∧ (get_router_code_shm reg name).2.ifaces = reg.ifaces
    ∧ (∀ n c, routerAssigned reg n c → routerAssigned (get_router_code_shm reg name).2 n c)
    ∧ (∀ rc n c, ifaceAssigned reg rc n c →
        ifaceAssigned (get_router_code_shm reg name).2 rc n c)
    ∧ (∀ c, (get_router_code_shm reg name).1 = some c →
        routerAssigned (get_router_code_shm reg name).2 name c) := by
  cases hhit : findRouterHit reg name with
  | some code =>
    have hres : get_router_code_shm reg name = (some code, reg) := by
      simp only [get_router_code_shm, hhit]
    rw [hres]
    refine ⟨inv, rfl, fun n c h => h, fun rc n c h => h, ?_⟩
    intro c hc
    injection hc with hcc
    subst hcc
    obtain ⟨i, hmem, hf⟩ := List.exists_of_findSome?_eq_some hhit
    have hilt : i < MAX_ROUTERS := by
      have h2 := List.mem_range.mp hmem
      have h3 : MAX_ROUTERS ⊓ (reg.routerCount + 10) ≤ MAX_ROUTERS := Nat.min_le_left _ _
      omega
    cases hri : reg.routers i with
    | none =>
      simp only [hri] at hf
      exact Option.noConfusion hf
    | some e =>
      simp only [hri] at hf
      by_cases hnm : e.name = name
      · rw [if_pos hnm] at hf
        injection hf with hcode
        refine ⟨i, hilt, ?_⟩
        rw [hri]
        cases e
        simp only at hnm hcode
        rw [hnm, hcode]
      · rw [if_neg hnm] at hf
        cases hf
  | none =>
    by_cases hfull : reg.routerCount ≥ MAX_ROUTERS
    · have hres : get_router_code_shm reg name = (none, reg) := by
        simp only [get_router_code_shm, hhit]
        rw [if_pos hfull]
      rw [hres]
      exact ⟨inv, rfl, fun n c h => h, fun rc n c h => h, fun c hc => absurd hc (by simp)⟩
    · push_neg at hfull
      have hfind : (List.range MAX_ROUTERS).find? (fun i => (reg.routers i).isNone)
          = some reg.routerCount := by
        apply find?_range_first _ _ _ hfull
        · rw [inv.rfree reg.routerCount le_rfl]
          rfl
        · intro j hj
          obtain ⟨e, hje⟩ := inv.rfill j hj
          rw [hje]
          rfl
      have hres : get_router_code_shm reg name =
          (some (('r' :: padDec 3 reg.nextRouterCode).take 7),
           { reg with
               routers := fun j => if j = reg.routerCount then
                   some ⟨name.take 255, ('r' :: padDec 3 reg.nextRouterCode).take 7⟩
                 else reg.routers j
               routerCount := reg.routerCount + 1
               nextRouterCode := reg.nextRouterCode + 1 }) := by
        simp only [get_router_code_shm, hhit, hfind]
        rw [if_neg (by omega)]
      have hnomatch : ∀ j e, reg.routers j = some e → e.name ≠ name := by
        intro j e hje hne
        have hjlt : j < reg.routerCount := by
          by_contra hge
          push_neg at hge
          rw [inv.rfree j hge] at hje
          cases hje
        have hjmem : j ∈ List.range (min MAX_ROUTERS (reg.routerCount + 10)) := by
          rw [List.mem_range]
          omega
        have hnone := (List.findSome?_eq_none.mp hhit) j hjmem
        simp only [hje] at hnone
        rw [if_pos hne] at hnone
        cases hnone
      have hntake : name.take 255 = name := List.take_all_of_le hwf
      rw [hres]
      refine ⟨?_, rfl, ?_, ?_, ?_⟩
      · constructor
        · simp only
          omega
        · have hnext := inv.rnext
          simp only
          omega
        · intro i hi
          simp only at hi ⊢
          by_cases hic : i = reg.routerCount
          · rw [if_pos hic]
            exact ⟨_, rfl⟩
          · rw [if_neg hic]
            exact inv.rfill i (by omega)
        · intro i hi
          simp only at hi ⊢
          rw [if_neg (by omega)]
          exact inv.rfree i (by omega)
        · intro i e
          simp only
          by_cases hic : i = reg.routerCount
          · rw [if_pos hic]
            intro he
            injection he with he1
            rw [← he1, hic, ← inv.rnext]
          · rw [if_neg hic]
            exact inv.rcode i e
        · intro i j ei ej
          simp only
          by_cases hic : i = reg.routerCount
          · rw [if_pos hic]
            intro hei hej hij
            by_cases hjc : j = reg.routerCount
            · exact absurd (hic.trans hjc.symm) hij
            · rw [if_neg hjc] at hej
              injection hei with hei1
              rw [← hei1]
              simp only [hntake]
              exact fun hne => hnomatch j ej hej hne.symm
          · rw [if_neg hic]
            intro hei hej hij
            by_cases hjc : j = reg.routerCount
            · rw [if_pos hjc] at hej
              injection hej with hej1
              rw [← hej1]
              simp only [hntake]
              exact hnomatch i ei hei
            · rw [if_neg hjc] at hej
              exact inv.rname_inj i j ei ej hei hej hij
        · exact inv.icount_le
        · exact inv.ifill
        · exact inv.ifree
        · exact inv.icode
        · exact inv.ikey_inj
      · intro n c h
        obtain ⟨i, hi, he⟩ := h
        refine ⟨i, hi, ?_⟩
        simp only
        rw [if_neg ?_]
        · exact he
        · intro hic
          rw [hic, inv.rfree reg.routerCount le_rfl] at he
          cases he
      · intro rc n c h
        obtain ⟨b, i, hb, hi, he⟩ := h
        exact ⟨b, i, hb, hi, he⟩
      · intro c hc
        injection hc with hcc
        refine ⟨reg.routerCount, hfull, ?_⟩
        simp [hntake, hcc]

set_option maxRecDepth 8000 in
theorem get_interface_code_step (reg : ShmRegistry) (rc ifname : Str) (inv : RegInv reg)
    (hwfc : rc.length ≤ 7) (hwfn : ifname.length ≤ 255) :
    RegInv (get_interface_code_shm reg rc ifname).2
    ∧ (get_interface_code_shm reg rc ifname).2.routers = reg.routers
    ∧ (∀ n c, routerAssigned reg n c →
        routerAssigned (get_interface_code_shm reg rc ifname).2 n c)
    ∧ (∀ rc' n c, ifaceAssigned reg rc' n c →
        ifaceAssigned (get_interface_code_shm reg rc ifname).2 rc' n c)
    ∧ (∀ c, (get_interface_code_shm reg rc ifname).1 = some c →
        ifaceAssigned (get_interface_code_shm reg rc ifname).2 rc ifname c) := by
  cases hrid : ridxOfCode rc with
  | none =>
    have hres : get_interface_code_shm reg rc ifname = (none, reg) := by
      simp only [get_interface_code_shm, hrid]
    rw [hres]
    exact ⟨inv, rfl, fun n c h => h, fun rc' n c h => h, fun c hc => absurd hc (by simp)⟩
  | some ridx =>
    have hrlt : ridx < MAX_ROUTERS := ridxOfCode_lt rc ridx hrid
    cases hhit : findIfaceHit reg (ridx * MAX_IFACES_PER_ROUTER) rc ifname with
    | some code =>
      have hres : get_interface_code_shm reg rc ifname = (some code, reg) := by
        simp only [get_interface_code_shm, hrid, hhit]
      rw [hres]
      refine ⟨inv, rfl, fun n c h => h, fun rc' n c h => h, ?_⟩
      intro c hc
      injection hc with hcc
      subst hcc
      obtain ⟨i, hmem, hf⟩ := List.exists_of_findSome?_eq_some hhit
      have hilt : i < MAX_IFACES_PER_ROUTER := List.mem_range.mp hmem
      cases hri : reg.ifaces (ridx * MAX_IFACES_PER_ROUTER + i) with
      | none =>
        simp only [hri] at hf
        exact Option.noConfusion hf
      | some e =>
        simp only [hri] at hf
        by_cases hnm : e.routerCode = rc ∧ e.name = ifname
        · rw [if_pos hnm] at hf
          injection hf with hcode
          refine ⟨ridx, i, hrid, hilt, ?_⟩
          rw [hri]
          cases e
          simp only at hnm hcode
          rw [hnm.1, hnm.2, hcode]
        · rw [if_neg hnm] at hf
          cases hf
    | none =>
      have hnomatch : ∀ i e, i < MAX_IFACES_PER_ROUTER →
          reg.ifaces (ridx * MAX_IFACES_PER_ROUTER + i) = some e →
          ¬ (e.routerCode = rc ∧ e.name = ifname) := by
        intro i e hi hie hkey
        have himem : i ∈ List.range MAX_IFACES_PER_ROUTER := List.mem_range.mpr hi
        have hnone := (List.findSome?_eq_none.mp hhit) i himem
        simp only [hie] at hnone
        rw [if_pos hkey] at hnone
        cases hnone
      by_cases hcnt : reg.nextIfaceCodes ridx < MAX_IFACES_PER_ROUTER
      · have hfind : (List.range MAX_IFACES_PER_ROUTER).find?
            (fun i => (reg.ifaces (ridx * MAX_IFACES_PER_ROUTER + i)).isNone)
            = some (reg.nextIfaceCodes ridx) := by
          apply find?_range_first _ _ _ hcnt
          · rw [inv.ifree ridx (reg.nextIfaceCodes ridx) hrlt le_rfl hcnt]
            rfl
          · intro j hj
            obtain ⟨e, hje⟩ := inv.ifill ridx j hrlt hj
            rw [hje]
            rfl
        have hres : get_interface_code_shm reg rc ifname =
            (some (('i' :: padDec 3 (reg.nextIfaceCodes ridx)).take 7),
             { reg with
                 ifaces := fun j =>
                   if j = ridx * MAX_IFACES_PER_ROUTER + reg.nextIfaceCodes ridx then
                     some ⟨rc.take 7, ifname.take 255,
                       ('i' :: padDec 3 (reg.nextIfaceCodes ridx)).take 7⟩
                   else reg.ifaces j
                 ifaceCount := reg.ifaceCount + 1
                 nextIfaceCodes := fun j =>
                   if j = ridx then reg.nextIfaceCodes ridx + 1
                   else reg.nextIfaceCodes j }) := by
          simp only [get_interface_code_shm, hrid, hhit, hfind]
        have hctake : rc.take 7 = rc := List.take_all_of_le hwfc
        have hntake : ifname.take 255 = ifname := List.take_all_of_le hwfn
        have hflat : ∀ b i, b < MAX_ROUTERS → i < MAX_IFACES_PER_ROUTER →
            (b * MAX_IFACES_PER_ROUTER + i
              = ridx * MAX_IFACES_PER_ROUTER + reg.nextIfaceCodes ridx)
            → b = ridx ∧ i = reg.nextIfaceCodes ridx := by
          intro b i hb hi heq
          unfold MAX_IFACES_PER_ROUTER at heq hi hcnt
          omega
        rw [hres]
        refine ⟨?_, rfl, ?_, ?_, ?_⟩
        · constructor
          · exact inv.rcount_le
          · exact inv.rnext
          · exact inv.rfill
          · exact inv.rfree
          · exact inv.rcode
          · exact inv.rname_inj
          · intro b hb
            simp only
            by_cases hbc : b = ridx
            · rw [if_pos hbc]
              subst hbc
              omega
            · rw [if_neg hbc]
              exact inv.icount_le b hb
          · intro b i hb hi
            simp only at hi ⊢
            by_cases hbc : b = ridx
            · rw [if_pos hbc] at hi
              by_cases hislot : i = reg.nextIfaceCodes ridx
              · rw [if_pos (by rw [hbc, hislot])]
                exact ⟨_, rfl⟩
              · rw [if_neg (by
                  rw [hbc]
                  intro heq
                  exact hislot (Nat.add_left_cancel heq))]
                rw [hbc]
                exact inv.ifill ridx i hrlt (by omega)
            · rw [if_neg hbc] at hi
              rw [if_neg (by
                intro heq
                have hi64 : i < MAX_IFACES_PER_ROUTER := by
                  have := inv.icount_le b hb
                  omega
                exact hbc (hflat b i hb hi64 heq).1)]
              exact inv.ifill b i hb hi
          · intro b i hb hile hi
            simp only at hile ⊢
            by_cases hbc : b = ridx
            · rw [if_pos hbc] at hile
              rw [if_neg (by
                rw [hbc]
                intro heq
                have := Nat.add_left_cancel heq
                omega)]
              rw [hbc]
              exact inv.ifree ridx i hrlt (by omega) hi
            · rw [if_neg hbc] at hile
              rw [if_neg (by
                intro heq
                exact hbc (hflat b i hb hi heq).1)]
              exact inv.ifree b i hb hile hi
          · intro b i e hb hi
            simp only
            by_cases hslot : b * MAX_IFACES_PER_ROUTER + i
                = ridx * MAX_IFACES_PER_ROUTER + reg.nextIfaceCodes ridx
            · rw [if_pos hslot]
              intro he
              injection he with he1
              obtain ⟨hb1, hi1⟩ := hflat b i hb hi hslot
              rw [← he1, hi1]
            · rw [if_neg hslot]
              exact inv.icode b i e hb hi
          · intro b i j ei ej hb hi hj
            simp only
            by_cases hsli : b * MAX_IFACES_PER_ROUTER + i
                = ridx * MAX_IFACES_PER_ROUTER + reg.nextIfaceCodes ridx
            · rw [if_pos hsli]
              intro hei hej hij
              obtain ⟨hb1, hi1⟩ := hflat b i hb hi hsli
              have hslj : b * MAX_IFACES_PER_ROUTER + j
                  ≠ ridx * MAX_IFACES_PER_ROUTER + reg.nextIfaceCodes ridx := by
                intro heq
                obtain ⟨_, hj1⟩ := hflat b j hb hj heq
                exact hij (hi1.trans hj1.symm)
              rw [if_neg hslj] at hej
              injection hei with hei1
              rw [← hei1]
              simp only [hctake, hntake]
              intro hkey
              injection hkey with hk1 hk2
              exact hnomatch j ej hj (by rw [← hb1]; exact hej) ⟨hk1.symm, hk2.symm⟩
            · rw [if_neg hsli]
              intro hei hej hij
              by_cases hslj : b * MAX_IFACES_PER_ROUTER + j
                  = ridx * MAX_IFACES_PER_ROUTER + reg.nextIfaceCodes ridx
              · rw [if_pos hslj] at hej
                obtain ⟨hb1, hj1⟩ := hflat b j hb hj hslj
                injection hej with hej1
                rw [← hej1]
                simp only [hctake, hntake]
                intro hkey
                injection hkey with hk1 hk2
                exact hnomatch i ei hi (by rw [← hb1]; exact hei) ⟨hk1, hk2⟩
              · rw [if_neg hslj] at hej
                exact inv.ikey_inj b i j ei ej hb hi hj hei hej hij
        · intro n c h
          exact h
        · intro rc' n c h
          obtain ⟨b, i, hb, hi, he⟩ := h
          refine ⟨b, i, hb, hi, ?_⟩
          simp only
          rw [if_neg ?_]
          · exact he
          · intro heq
            obtain ⟨hb1, hi1⟩ := hflat b i (ridxOfCode_lt rc' b hb) hi heq
            rw [heq] at he
            rw [inv.ifree ridx (reg.nextIfaceCodes ridx) hrlt le_rfl hcnt] at he
            cases he
        · intro c hc
          injection hc with hcc
          refine ⟨ridx, reg.nextIfaceCodes ridx, hrid, hcnt, ?_⟩
          simp [hctake, hntake, hcc]
      · have hfind : (List.range MAX_IFACES_PER_ROUTER).find?
            (fun i => (reg.ifaces (ridx * MAX_IFACES_PER_ROUTER + i)).isNone) = none := by
          rw [List.find?_eq_none]
          intro j hjmem
          obtain ⟨e, hje⟩ := inv.ifill ridx j hrlt (by
            have := List.mem_range.mp hjmem
            omega)
          rw [hje]
          simp
        have hres : get_interface_code_shm reg rc ifname = (none, reg) := by
          simp only [get_interface_code_shm, hrid, hhit, hfind]
        rw [hres]
        exact ⟨inv, rfl, fun n c h => h, fun rc' n c h => h, fun c hc => absurd hc (by simp)⟩

theorem regInv_clear : RegInv clearRegistry := by
  refine ⟨?_, rfl, ?_, ?_, ?_, ?_, ?_, ?_, ?_, ?_, ?_⟩
  · simp [clearRegistry]
  · intro i hi
    simp [clearRegistry] at hi
  · intro i _
    rfl
  · intro i e he
    cases he
  · intro i j ei ej he
    cases he
  · intro b _
    simp [clearRegistry]
  · intro b i _ hi
    simp [clearRegistry] at hi
  · intro b i _ _ _
    rfl
  · intro b i e _ _ he
    cases he
  · intro b i j ei ej _ _ _ he
    cases he

theorem regRun_cons (reg : ShmRegistry) (op : RegOp) (rest : List RegOp) :
    regRun reg (op :: rest)
      = ((regStep reg op).1 :: (regRun (regStep reg op).2 rest).1,
         (regRun (regStep reg op).2 rest).2) := rfl

theorem regRun_facts : ∀ (ops : List RegOp) (reg : ShmRegistry), RegInv reg →
    (∀ op ∈ ops, regOpWF op) →
    RegInv (regRun reg ops).2
    ∧ (∀ n c, routerAssigned reg n c → routerAssigned (regRun reg ops).2 n c)
    ∧ (∀ rc n c, ifaceAssigned reg rc n c → ifaceAssigned (regRun reg ops).2 rc n c)
    ∧ (∀ p np cp, ops.get? p = some (RegOp.getRouter np) →
        (regRun reg ops).1.get? p = some (some cp) →
        routerAssigned (regRun reg ops).2 np cp)
    ∧ (∀ p rcp np cp, ops.get? p = some (RegOp.getIface rcp np) →
        (regRun reg ops).1.get? p = some (some cp) →
        ifaceAssigned (regRun reg ops).2 rcp np cp) := by
  intro ops
  induction ops with
  | nil =>
    intro reg inv _
    refine ⟨inv, fun n c h => h, fun rc n c h => h, ?_, ?_⟩
    · intro p np cp h
      simp at h
    · intro p rcp np cp h
      simp at h
  | cons op rest ih =>
    intro reg inv hwf
    have hwfrest : ∀ o ∈ rest, regOpWF o := fun o ho => hwf o (by simp [ho])
    cases op with
    | getRouter nm =>
      have hw : nm.length ≤ 255 := hwf (RegOp.getRouter nm) (by simp)
      obtain ⟨invs, _, hpr, hpi, hout⟩ := get_router_code_step reg nm inv hw
      obtain ⟨ihInv, ihPR, ihPI, ihOutR, ihOutI⟩ :=
        ih (get_router_code_shm reg nm).2 invs hwfrest
      rw [regRun_cons]
      refine ⟨ihInv, ?_, ?_, ?_, ?_⟩
      · intro n c h
        exact ihPR n c (hpr n c h)
      · intro rc n c h
        exact ihPI rc n c (hpi rc n c h)
      · intro p np cp hop hoc
        match p with
        | 0 =>
          rw [List.get?_cons_zero] at hop hoc
          injection hop with hop1
          injection hop1 with hnm
          injection hoc with hoc1
          subst hnm
          exact ihPR _ _ (hout cp hoc1)
        | p + 1 =>
          rw [List.get?_cons_succ] at hop hoc
          exact ihOutR p np cp hop hoc
      · intro p rcp np cp hop hoc
        match p with
        | 0 =>
          rw [List.get?_cons_zero] at hop
          injection hop with hop1
          cases hop1
        | p + 1 =>
          rw [List.get?_cons_succ] at hop hoc
          exact ihOutI p rcp np cp hop hoc
    | getIface rc0 nm =>
      have hw := hwf (RegOp.getIface rc0 nm) (by simp)
      obtain ⟨hwc, hwn⟩ := hw
      obtain ⟨invs, _, hpr, hpi, hout⟩ := get_interface_code_step reg rc0 nm inv hwc hwn
      obtain ⟨ihInv, ihPR, ihPI, ihOutR, ihOutI⟩ :=
        ih (get_interface_code_shm reg rc0 nm).2 invs hwfrest
      rw [regRun_cons]
      refine ⟨ihInv, ?_, ?_, ?_, ?_⟩
      · intro n c h
        exact ihPR n c (hpr n c h)
      · intro rc n c h
        exact ihPI rc n c (hpi rc n c h)
      · intro p np cp hop hoc
        match p with
        | 0 =>
          rw [List.get?_cons_zero] at hop
          injection hop with hop1
          cases hop1
        | p + 1 =>
          rw [List.get?_cons_succ] at hop hoc
          exact ihOutR p np cp hop hoc
      · intro p rcp np cp hop hoc
        match p with
        | 0 =>
          rw [List.get?_cons_zero] at hop hoc
          injection hop with hop1
          injection hop1 with hrc hnm
          injection hoc with hoc1
          subst hrc
          subst hnm
          exact ihPI _ _ _ (hout cp hoc1)
        | p + 1 =>
          rw [List.get?_cons_succ] at hop hoc
          exact ihOutI p rcp np cp hop hoc

/-- C8 amended: over any sequence of get-or-create calls from a cleared
registry whose names fit the stored field widths, two successful
`get_router_code_shm` calls return equal codes exactly when their names
are equal (distinct names get distinct codes, repeats get the stored
code), and two successful `get_interface_code_shm` calls agree on the
pair (router code, interface code) exactly when they agree on the pair
(router code, interface name).  The original claim's stronger reading —
that interface codes alone distinguish distinct (router, interface)
pairs — is false (see the counterexample): the per-router counters
restart at `i000` for each router. -/
theorem C8_amended :
    ∀ ops : List RegOp, (∀ op ∈ ops, regOpWF op) →
    (∀ p q np nq cp cq,
       ops.get? p = some (RegOp.getRouter np) →
       (regRun clearRegistry ops).1.get? p = some (some cp) →
       ops.get? q = some (RegOp.getRouter nq) →
       (regRun clearRegistry ops).1.get? q = some (some cq) →
       (np = nq ↔ cp = cq))
    ∧ (∀ p q rcp np rcq nq cp cq,
       ops.get? p = some (RegOp.getIface rcp np) →
       (regRun clearRegistry ops).1.get? p = some (some cp) →
       ops.get? q = some (RegOp.getIface rcq nq) →
       (regRun clearRegistry ops).1.get? q = some (some cq) →
       ((rcp, np) = (rcq, nq) ↔ (rcp, cp) = (rcq, cq))) := by
  intro ops hwf
  obtain ⟨finv, _, _, houtR, houtI⟩ := regRun_facts ops clearRegistry regInv_clear hwf
  constructor
  · intro p q np nq cp cq hp hpc hq hqc
    exact routerAssigned_inj _ finv np nq cp cq (houtR p np cp hp hpc) (houtR q nq cq hq hqc)
  · intro p q rcp np rcq nq cp cq hp hpc hq hqc
    exact ifaceAssigned_inj _ finv rcp np cp rcq nq cq
      (houtI p rcp np cp hp hpc) (houtI q rcq nq cq hq hqc)

set_option maxRecDepth 200000 in
/-- Witness for C8 amended on a concrete call sequence: a repeated router
name returns its stored code, distinct names get distinct codes, and the
same (router code, interface name) pair returns the stored interface
code. -/
theorem C8_amended_witness :
    (str "A" = str "B" ↔ str "r000" = str "r001")
    ∧ (str "A" = str "A" ↔ str "r000" = str "r000")
    ∧ ((str "r000", str "eth0") = (str "r000", str "eth0")
        ↔ (str "r000", str "i000") = (str "r000", str "i000")) :=
  have h := C8_amended
    [RegOp.getRouter (str "A"), RegOp.getRouter (str "B"),
     RegOp.getIface (str "r000") (str "eth0"), RegOp.getRouter (str "A"),
     RegOp.getIface (str "r000") (str "eth0")]
    (by
      intro op hop
      simp only [List.mem_cons, List.not_mem_nil, or_false] at hop
      rcases hop with h | h | h | h | h <;> subst h <;> simp only [regOpWF] <;> decide)
  ⟨h.1 0 1 (str "A") (str "B") (str "r000") (str "r001")
     (by decide) (by decide) (by decide) (by decide),
   h.1 0 3 (str "A") (str "A") (str "r000") (str "r000")
     (by decide) (by decide) (by decide) (by decide),
   h.2 2 4 (str "r000") (str "eth0") (str "r000") (str "eth0") (str "i000") (str "i000")
     (by decide) (by decide) (by decide) (by decide)⟩
